import Mathlib

/-!
# slack_bot_gateway: routing decision of the reverse-proxy director

Shallow embedding of `cmd/slack_bot_gateway/server.go`.

The two functions of the program that decide where a request goes are
`getCallbackIDFromPayload` and the `director` closure of `main`. They are
translated below, together with executable models of the library calls they
make (`url.ParseQuery`, `json.Unmarshal`, `jsonpointer.Get`,
`regexp.ReplaceAllString`, `http.NewRequest`).

Conventions.
* A Go string is a byte sequence. It is represented by a Lean `String` whose
  characters stand for the bytes, so ASCII text reads as itself.
* A Go call either returns, panics, or ends the process (`log.Fatal`); the
  three are the constructors of `Outcome`.
* Writing to the logger has no influence on the routing decision and is left
  out.
-/

namespace SlackBotGateway

/-- Go `error` values. Only their presence matters here: the texts are short
forms of the messages of the Go libraries, without the quoted input. -/
abbrev GoError := String

/-- How a Go call ends: it returns a value, it panics, or it terminates the
process through `log.Fatal`. -/
inductive Outcome (α : Type) where
  | ok (value : α)
  | panic (msg : String)
  | fatal (msg : String)
deriving DecidableEq, Repr

/-! ## Configuration -/

/-- `BackendConfig` describes backend server host. -/
structure BackendConfig where
  CallbackPrefix : String
  Host : String
deriving DecidableEq, Repr

/-! ## `regexp.MustCompile("__.*").ReplaceAllString(s, "")` -/

/-- Scanner for the pattern `__.*` with the empty replacement. The flag tells
whether the scanner is inside a match. Outside a match the leftmost `__` opens
one; inside, `.` consumes every character except the line feed, at which the
match ends and scanning resumes. Matched text is dropped, the rest is copied. -/
def reReplaceAll : Bool → List Char → List Char
  | _, [] => []
  | true, c :: cs => if c = '\n' then c :: reReplaceAll false cs else reReplaceAll true cs
  | false, '_' :: '_' :: rest => reReplaceAll true rest
  | false, c :: cs => c :: reReplaceAll false cs

/-- Result of `re.ReplaceAllString(callbackID, "")` with `re` compiled from
the pattern `__.*`. -/
def ReplaceAllString (callbackID : String) : String :=
  ⟨reReplaceAll false callbackID.data⟩

/-! ## `net/url`: escaping -/

/-- The escaping modes of `net/url`. -/
inductive Encoding where
  | encodePath
  | encodePathSegment
  | encodeHost
  | encodeZone
  | encodeUserPassword
  | encodeQueryComponent
  | encodeFragment
deriving DecidableEq, Repr

/-- ASCII letters and digits. -/
def isAlnum (c : Char) : Bool :=
  ('a' ≤ c ∧ c ≤ 'z') ∨ ('A' ≤ c ∧ c ≤ 'Z') ∨ ('0' ≤ c ∧ c ≤ '9')

/-- `shouldEscape` of `net/url`: whether the byte is written as `%XX` in the
given part of a URL. -/
def shouldEscape (c : Char) (mode : Encoding) : Bool :=
  if isAlnum c then false
  else if (mode = Encoding.encodeHost ∨ mode = Encoding.encodeZone) ∧
      c ∈ ['!', '$', '&', '\'', '(', ')', '*', '+', ',', ';', '=', ':', '[', ']', '<', '>', '"']
    then false
  else if c ∈ ['-', '_', '.', '~'] then false
  else if c ∈ ['$', '&', '+', ',', '/', ':', ';', '=', '?', '@'] ∧
      mode ≠ Encoding.encodeHost ∧ mode ≠ Encoding.encodeZone then
    match mode with
    | Encoding.encodePath => c = '?'
    | Encoding.encodePathSegment => c = '/' ∨ c = ';' ∨ c = ',' ∨ c = '?'
    | Encoding.encodeUserPassword => c = '@' ∨ c = '/' ∨ c = '?' ∨ c = ':'
    | Encoding.encodeQueryComponent => true
    | _ => false
  else if mode = Encoding.encodeFragment ∧ c ∈ ['!', '(', ')', '*'] then false
  else true

/-- `ishex` of `net/url`, also the test of `getu4`. -/
def ishex (c : Char) : Bool :=
  ('0' ≤ c ∧ c ≤ '9') ∨ ('a' ≤ c ∧ c ≤ 'f') ∨ ('A' ≤ c ∧ c ≤ 'F')

/-- `unhex` of `net/url`. -/
def unhex (c : Char) : Nat :=
  if '0' ≤ c ∧ c ≤ '9' then c.toNat - '0'.toNat
  else if 'a' ≤ c ∧ c ≤ 'f' then c.toNat - 'a'.toNat + 10
  else if 'A' ≤ c ∧ c ≤ 'F' then c.toNat - 'A'.toNat + 10
  else 0

/-- `unescape` of `net/url`: `%XX` becomes the byte `XX`, and in a query
component `+` becomes a space. `none` is the error: a `%` that is not followed
by two hexadecimal digits, and in a host an escape of an ASCII byte other than
`%25` or a byte that a host cannot hold. -/
def unescape (mode : Encoding) : List Char → Option (List Char)
  | [] => some []
  | '%' :: h1 :: h2 :: rest =>
    if ishex h1 ∧ ishex h2 then
      if mode = Encoding.encodeHost ∧ unhex h1 < 8 ∧ ¬ (h1 = '2' ∧ h2 = '5') then none
      else if mode = Encoding.encodeZone ∧ ¬ (h1 = '2' ∧ h2 = '5') ∧
          16 * unhex h1 + unhex h2 ≠ 32 ∧
          shouldEscape (Char.ofNat (16 * unhex h1 + unhex h2)) Encoding.encodeHost then none
      else (unescape mode rest).map (fun r => Char.ofNat (16 * unhex h1 + unhex h2) :: r)
    else none
  | '%' :: _ => none
  | c :: rest =>
    if c = '+' ∧ mode = Encoding.encodeQueryComponent then
      (unescape mode rest).map (fun r => ' ' :: r)
    else if (mode = Encoding.encodeHost ∨ mode = Encoding.encodeZone) ∧ c.toNat < 0x80 ∧
        shouldEscape c Encoding.encodeHost then none
    else (unescape mode rest).map (fun r => c :: r)

/-- The upper-case hexadecimal digit of a value below 16. -/
def upperhex (n : Nat) : Char :=
  if n < 10 then Char.ofNat ('0'.toNat + n) else Char.ofNat ('A'.toNat + (n - 10))

/-- `escape` of `net/url`. -/
def escape (mode : Encoding) : List Char → List Char
  | [] => []
  | c :: rest =>
    if shouldEscape c mode then
      if c = ' ' ∧ mode = Encoding.encodeQueryComponent then '+' :: escape mode rest
      else '%' :: upperhex (c.toNat / 16 % 16) :: upperhex (c.toNat % 16) :: escape mode rest
    else c :: escape mode rest

/-- `validEncoded` of `net/url`. -/
def validEncoded (mode : Encoding) (s : List Char) : Bool :=
  s.all (fun c =>
    c ∈ ['!', '$', '&', '\'', '(', ')', '*', '+', ',', ';', '=', ':', '@', '[', ']', '%'] ∨
      ¬ shouldEscape c mode)

/-- `url.QueryUnescape`. -/
def QueryUnescape (s : List Char) : Option String :=
  (unescape Encoding.encodeQueryComponent s).map String.mk

/-! ## `url.ParseQuery` and `Values.Get` -/

/-- `url.Values`: the values recorded for each key, in order of arrival. -/
abbrev Values := List (String × List String)

/-- Statement `m[key] = append(m[key], value)`. -/
def Values.add (key value : String) : Values → Values
  | [] => [(key, [value])]
  | (k, vs) :: rest =>
    if k = key then (k, vs ++ [value]) :: rest else (k, vs) :: Values.add key value rest

/-- `Values.Get`: the first value recorded for the key, the empty string when
there is none. -/
def Values.Get (v : Values) (key : String) : String :=
  match v.lookup key with
  | some (x :: _) => x
  | _ => ""

/-- The pieces of `s` between occurrences of `sep`. -/
def splitAt (sep : Char) : List Char → List (List Char)
  | [] => [[]]
  | c :: cs =>
    if c = sep then [] :: splitAt sep cs
    else
      match splitAt sep cs with
      | [] => [[c]]
      | piece :: pieces => (c :: piece) :: pieces

/-- `strings.Cut(key, "=")`: the text before the first `=` and the text after
it (empty when there is no `=`). -/
def cutEq : List Char → List Char × List Char
  | [] => ([], [])
  | c :: cs => if c = '=' then ([], cs) else ((cutEq cs).1.cons c, (cutEq cs).2)

/-- Loop body of `parseQuery` of `net/url`, folded over the `&`-separated
pieces: a piece holding `;` sets the error, an empty piece is skipped, a piece
whose key or value does not unescape records the first such error, every other
piece is added to the map. -/
def parseQueryLoop : List (List Char) → Values × Option GoError → Values × Option GoError
  | [], acc => acc
  | piece :: pieces, (m, err) =>
    if ';' ∈ piece then
      parseQueryLoop pieces (m, some "invalid semicolon separator in query")
    else if piece = [] then parseQueryLoop pieces (m, err)
    else
      match QueryUnescape (cutEq piece).1 with
      | none => parseQueryLoop pieces (m, err.orElse (fun _ => some "invalid URL escape"))
      | some key =>
        match QueryUnescape (cutEq piece).2 with
        | none => parseQueryLoop pieces (m, err.orElse (fun _ => some "invalid URL escape"))
        | some value => parseQueryLoop pieces (m.add key value, err)

/-- `url.ParseQuery`: it always returns the map of all the pairs that could be
decoded, together with the first decoding error if there was one. -/
def ParseQuery (query : String) : Values × Option GoError :=
  parseQueryLoop (splitAt '&' query.data) ([], none)

/-! ## `net/url`: `URL.String` and `url.Parse` -/

/-- `url.Userinfo`. -/
structure Userinfo where
  username : String
  password : String := ""
  passwordSet : Bool := false
deriving DecidableEq, Repr

/-- `url.URL`. -/
structure URL where
  Scheme : String := ""
  Opaque : String := ""
  User : Option Userinfo := none
  Host : String := ""
  Path : String := ""
  RawPath : String := ""
  OmitHost : Bool := false
  ForceQuery : Bool := false
  RawQuery : String := ""
  Fragment : String := ""
  RawFragment : String := ""
deriving DecidableEq, Repr

/-- `strings.Cut(s, sep)` for a separator of one byte: the text before the
first occurrence and the text after it, `none` when there is no occurrence. -/
def cut (sep : Char) : List Char → Option (List Char × List Char)
  | [] => none
  | c :: cs => if c = sep then some ([], cs) else (cut sep cs).map (fun p => (c :: p.1, p.2))

/-- The text before the last occurrence of `sep` and the text after it, `none`
when there is no occurrence (`strings.LastIndex` and the two slices). -/
def cutLast (sep : Char) : List Char → Option (List Char × List Char)
  | [] => none
  | c :: cs =>
    match cutLast sep cs with
    | some p => some (c :: p.1, p.2)
    | none => if c = sep then some ([], cs) else none

/-- The text before the first `/` and the text from it on (`strings.Index(s, "/")`
and the two slices; the second part is empty when there is no `/`). -/
def splitAtSlash : List Char → List Char × List Char
  | [] => ([], [])
  | c :: cs =>
    if c = '/' then ([], c :: cs) else ((splitAtSlash cs).1.cons c, (splitAtSlash cs).2)

/-- The text before the first occurrence of `%25` and the text from it on,
`none` when there is no occurrence. -/
def cutZone : List Char → Option (List Char × List Char)
  | [] => none
  | c :: cs =>
    match c, cs with
    | '%', '2' :: '5' :: _ => some ([], c :: cs)
    | _, _ => (cutZone cs).map (fun p => (c :: p.1, p.2))

/-- `stringContainsCTLByte`. -/
def stringContainsCTLByte (s : List Char) : Bool :=
  s.any (fun c => c.toNat < 0x20 ∨ c.toNat = 0x7f)

/-- ASCII lower case, as `strings.ToLower` acts on a scheme. -/
def toLowerASCII (c : Char) : Char :=
  if 'A' ≤ c ∧ c ≤ 'Z' then Char.ofNat (c.toNat + 32) else c

/-- `getScheme`: the scheme and what follows its colon; no scheme when the
text does not start with a letter followed by letters, digits, `+`, `-`, `.`
up to a colon. The first argument is the part already read. -/
def getScheme (rawURL : List Char) : List Char → List Char →
    Except GoError (List Char × List Char)
  | _, [] => .ok ([], rawURL)
  | seen, c :: cs =>
    if ('a' ≤ c ∧ c ≤ 'z') ∨ ('A' ≤ c ∧ c ≤ 'Z') then getScheme rawURL (seen ++ [c]) cs
    else if ('0' ≤ c ∧ c ≤ '9') ∨ c = '+' ∨ c = '-' ∨ c = '.' then
      if seen = [] then .ok ([], rawURL) else getScheme rawURL (seen ++ [c]) cs
    else if c = ':' then
      if seen = [] then .error "missing protocol scheme" else .ok (seen, cs)
    else .ok ([], rawURL)

/-- `validOptionalPort`: empty, or a colon followed by digits only. -/
def validOptionalPort : List Char → Bool
  | [] => true
  | c :: ds => c = ':' ∧ ds.all (fun d => '0' ≤ d ∧ d ≤ '9')

/-- `validUserinfo`. -/
def validUserinfo (s : List Char) : Bool :=
  s.all (fun c => isAlnum c ∨
    c ∈ ['-', '.', '_', ':', '~', '!', '$', '&', '\'', '(', ')', '*', '+', ',', ';', '=', '%',
      '@'])

/-- `parseHost`: the host of an authority, with the port checked and the
escapes of a host decoded. A host that starts with `[` is an IP literal, whose
zone (from `%25` on) is decoded by the rules of a zone. -/
def parseHost (host : List Char) : Except GoError (List Char) :=
  let plain : Except GoError (List Char) :=
    match unescape Encoding.encodeHost host with
    | some h => .ok h
    | none => .error "invalid URL escape or invalid character in host name"
  if host.head? = some '[' then
    match cutLast ']' host with
    | none => .error "missing ']' in host"
    | some (inside, colonPort) =>
      if ¬ validOptionalPort colonPort then .error "invalid port after host"
      else
        match cutZone inside with
        | some (host1, zone) =>
          match unescape Encoding.encodeHost host1, unescape Encoding.encodeZone zone,
              unescape Encoding.encodeHost (']' :: colonPort) with
          | some h1, some h2, some h3 => .ok (h1 ++ h2 ++ h3)
          | _, _, _ => .error "invalid URL escape or invalid character in host name"
        | none => plain
  else
    match cutLast ':' host with
    | some (_, port) =>
      if ¬ validOptionalPort (':' :: port) then .error "invalid port after host" else plain
    | none => plain

/-- `parseAuthority`: user information and host of `[userinfo@]host`. -/
def parseAuthority (authority : List Char) : Except GoError (Option Userinfo × List Char) :=
  match cutLast '@' authority with
  | none => (parseHost authority).map (fun h => (none, h))
  | some (userinfo, hostPart) =>
    match parseHost hostPart with
    | .error e => .error e
    | .ok h =>
      if ¬ validUserinfo userinfo then .error "net/url: invalid userinfo"
      else
        match cut ':' userinfo with
        | none =>
          match unescape Encoding.encodeUserPassword userinfo with
          | none => .error "invalid URL escape"
          | some u => .ok (some { username := ⟨u⟩ }, h)
        | some (username, password) =>
          match unescape Encoding.encodeUserPassword username,
              unescape Encoding.encodeUserPassword password with
          | some u, some p => .ok (some { username := ⟨u⟩, password := ⟨p⟩, passwordSet := true }, h)
          | _, _ => .error "invalid URL escape"

/-- The query of `parse`: a lone final `?` sets `ForceQuery`, otherwise the
text is cut at its first `?`. The result is the part before the query, the raw
query and the flag. -/
def splitQuery (rest : List Char) : List Char × List Char × Bool :=
  if rest.getLast? = some '?' ∧ rest.count '?' = 1 then (rest.dropLast, [], true)
  else
    match cut '?' rest with
    | some p => (p.1, p.2, false)
    | none => (rest, [], false)

/-- The authority of `parse`: after a scheme, or in a reference that is not a
request target and does not start with `///`, the text between `//` and the
next `/` is the authority. The result is the URL with user and host filled in,
and the path that remains. -/
def locateAuthority (scheme : List Char) (viaRequest : Bool) (url : URL) (rest : List Char) :
    Except GoError (URL × List Char) :=
  match rest with
  | '/' :: '/' :: after =>
    if scheme ≠ [] ∨ (¬ viaRequest ∧ after.head? ≠ some '/') then
      match parseAuthority (splitAtSlash after).1 with
      | .error e => .error e
      | .ok (user, host) =>
        .ok ({ url with User := user, Host := ⟨host⟩ }, (splitAtSlash after).2)
    else .ok (url, rest)
  | '/' :: _ => .ok ({ url with OmitHost := decide (scheme ≠ []) }, rest)
  | _ => .ok (url, rest)

/-- `URL.setPath`: the path is decoded, and the raw text is kept as `RawPath`
when it is not the default encoding of the path. -/
def setPath (url : URL) (p : List Char) : Except GoError URL :=
  match unescape Encoding.encodePath p with
  | none => .error "invalid URL escape"
  | some path =>
    .ok { url with
      Path := ⟨path⟩,
      RawPath := if escape Encoding.encodePath path = p then "" else ⟨p⟩ }

/-- `parse` of `net/url`, called on a text without fragment. With `viaRequest`
the text is read as a request target (`url.ParseRequestURI`). -/
def parse (rawURL : List Char) (viaRequest : Bool) : Except GoError URL :=
  if stringContainsCTLByte rawURL then .error "net/url: invalid control character in URL"
  else if rawURL = [] ∧ viaRequest then .error "empty url"
  else if rawURL = ['*'] then .ok { Path := "*" }
  else
    match getScheme rawURL [] rawURL with
    | .error e => .error e
    | .ok (scheme0, rest0) =>
      let scheme := scheme0.map toLowerASCII
      let rest := (splitQuery rest0).1
      let url : URL :=
        { Scheme := ⟨scheme⟩, ForceQuery := (splitQuery rest0).2.2,
          RawQuery := ⟨(splitQuery rest0).2.1⟩ }
      if rest.head? ≠ some '/' ∧ scheme ≠ [] then .ok { url with Opaque := ⟨rest⟩ }
      else if rest.head? ≠ some '/' ∧ viaRequest then .error "invalid URI for request"
      else if rest.head? ≠ some '/' ∧ ':' ∈ (splitAtSlash rest).1 then
        .error "first path segment in URL cannot contain colon"
      else
        match locateAuthority scheme viaRequest url rest with
        | .error e => .error e
        | .ok (url1, p) => setPath url1 p

/-- `url.Parse`: the fragment is cut off at the first `#` and decoded, the
rest is parsed. -/
def Parse (rawURL : String) : Except GoError URL :=
  match cut '#' rawURL.data with
  | none => parse rawURL.data false
  | some (u, frag) =>
    match parse u false with
    | .error e => .error e
    | .ok url =>
      if frag = [] then .ok url
      else
        match unescape Encoding.encodeFragment frag with
        | none => .error "invalid URL escape"
        | some f =>
          .ok { url with
            Fragment := ⟨f⟩,
            RawFragment := if escape Encoding.encodeFragment f = frag then "" else ⟨frag⟩ }

/-- `url.ParseRequestURI`, which the server applies to the request target. -/
def ParseRequestURI (rawURL : String) : Except GoError URL :=
  parse rawURL.data true

/-- `URL.EscapedPath`. -/
def URL.EscapedPath (u : URL) : List Char :=
  if u.RawPath ≠ "" ∧ validEncoded Encoding.encodePath u.RawPath.data ∧
      unescape Encoding.encodePath u.RawPath.data = some u.Path.data then u.RawPath.data
  else if u.Path = "*" then ['*']
  else escape Encoding.encodePath u.Path.data

/-- `URL.EscapedFragment`. -/
def URL.EscapedFragment (u : URL) : List Char :=
  if u.RawFragment ≠ "" ∧ validEncoded Encoding.encodeFragment u.RawFragment.data ∧
      unescape Encoding.encodeFragment u.RawFragment.data = some u.Fragment.data then
    u.RawFragment.data
  else escape Encoding.encodeFragment u.Fragment.data

/-- `Userinfo.String`. -/
def Userinfo.render (ui : Userinfo) : List Char :=
  escape Encoding.encodeUserPassword ui.username.data ++
    (if ui.passwordSet then ':' :: escape Encoding.encodeUserPassword ui.password.data else [])

/-- The text that `URL.String` writes. -/
def URL.render (u : URL) : List Char :=
  let scheme : List Char := if u.Scheme ≠ "" then u.Scheme.data ++ [':'] else []
  let body : List Char :=
    if u.Opaque ≠ "" then u.Opaque.data
    else
      let authority : List Char :=
        if u.Scheme ≠ "" ∨ u.Host ≠ "" ∨ u.User ≠ none then
          if u.OmitHost ∧ u.Host = "" ∧ u.User = none then []
          else
            (if u.Host ≠ "" ∨ u.Path ≠ "" ∨ u.User ≠ none then ['/', '/'] else []) ++
            (match u.User with
              | some ui => ui.render ++ ['@']
              | none => []) ++
            (if u.Host ≠ "" then escape Encoding.encodeHost u.Host.data else [])
        else []
      let path := u.EscapedPath
      let slash : List Char :=
        if path ≠ [] ∧ path.head? ≠ some '/' ∧ u.Host ≠ "" then ['/'] else []
      let dot : List Char :=
        if scheme ++ authority ++ slash = [] ∧ ':' ∈ (splitAtSlash path).1 then
          ['.', '/']
        else []
      authority ++ slash ++ dot ++ path
  let query : List Char :=
    if u.ForceQuery ∨ u.RawQuery ≠ "" then '?' :: u.RawQuery.data else []
  let fragment : List Char := if u.Fragment ≠ "" then '#' :: u.EscapedFragment else []
  scheme ++ body ++ query ++ fragment

/-- `URL.String`. -/
def URL.String (u : URL) : String := ⟨u.render⟩

/-! ## `json.Unmarshal` into `interface{}` -/

/-- A value decoded by `json.Unmarshal` into `interface{}`: `nil`, `bool`,
`float64` (kept as its literal), `string`, `[]interface{}` and
`map[string]interface{}`. -/
inductive JVal where
  | null
  | bool (b : Bool)
  | num (literal : String)
  | str (s : String)
  | arr (items : List JVal)
  | obj (members : List (String × JVal))
deriving Repr

/-- Map assignment `m[key] = value`: a later duplicate key replaces the
earlier value. -/
def setMember (key : String) (value : JVal) : List (String × JVal) → List (String × JVal)
  | [] => [(key, value)]
  | (k, v) :: rest =>
    if k = key then (key, value) :: rest else (k, v) :: setMember key value rest

/-- Map lookup `m[key]`. -/
def getMember (key : String) : List (String × JVal) → Option JVal
  | [] => none
  | (k, v) :: rest => if k = key then some v else getMember key rest

/-- JSON white space. -/
def skipWs : List Char → List Char
  | [] => []
  | c :: cs => if c = ' ' ∨ c = '\t' ∨ c = '\r' ∨ c = '\n' then skipWs cs else c :: cs

/-- UTF-8 encoding of a code point, as `utf8.EncodeRune` writes it. -/
def encodeRune (r : Nat) : List Char :=
  if r < 0x80 then [Char.ofNat r]
  else if r < 0x800 then [Char.ofNat (0xC0 + r / 64), Char.ofNat (0x80 + r % 64)]
  else if r < 0x10000 then
    [Char.ofNat (0xE0 + r / 4096), Char.ofNat (0x80 + r / 64 % 64), Char.ofNat (0x80 + r % 64)]
  else
    [Char.ofNat (0xF0 + r / 262144), Char.ofNat (0x80 + r / 4096 % 64),
     Char.ofNat (0x80 + r / 64 % 64), Char.ofNat (0x80 + r % 64)]

/-- Whether the byte lies between the two bounds. -/
def inRange (c : Char) (lo hi : Nat) : Bool := lo ≤ c.toNat ∧ c.toNat ≤ hi

/-- Length of the well-formed UTF-8 sequence of two to four bytes at the head of
the input, as `utf8.DecodeRune` accepts it; 0 when there is none (a stray
continuation byte, an overlong or surrogate encoding, a truncated sequence, a
byte that never occurs in UTF-8). -/
def utf8SeqLen : List Char → Nat
  | c1 :: c2 :: rest =>
    if inRange c1 0xC2 0xDF then (if inRange c2 0x80 0xBF then 2 else 0)
    else
      let second : Bool :=
        if c1.toNat = 0xE0 then inRange c2 0xA0 0xBF
        else if c1.toNat = 0xED then inRange c2 0x80 0x9F
        else if c1.toNat = 0xF0 then inRange c2 0x90 0xBF
        else if c1.toNat = 0xF4 then inRange c2 0x80 0x8F
        else inRange c2 0x80 0xBF
      if ¬ second then 0
      else if inRange c1 0xE0 0xEF then
        match rest with
        | c3 :: _ => if inRange c3 0x80 0xBF then 3 else 0
        | [] => 0
      else if inRange c1 0xF0 0xF4 then
        match rest with
        | c3 :: c4 :: _ => if inRange c3 0x80 0xBF ∧ inRange c4 0x80 0xBF then 4 else 0
        | _ => 0
      else 0
  | _ => 0

/-- `getu4`: the value of four hexadecimal digits. -/
def getu4 (h1 h2 h3 h4 : Char) : Option Nat :=
  if ishex h1 ∧ ishex h2 ∧ ishex h3 ∧ ishex h4 then
    some (4096 * unhex h1 + 256 * unhex h2 + 16 * unhex h3 + unhex h4)
  else none

/-- Body of a JSON string after its opening quote: the decoded bytes and the
input that follows the closing quote. The first argument counts the
continuation bytes of a well-formed UTF-8 sequence that are still to be
copied. A lone surrogate escape decodes to U+FFFD, a surrogate pair to the
code point it encodes, and a byte that is not part of well-formed UTF-8 is
replaced by U+FFFD. -/
def parseStringBody : Nat → List Char → Option (List Char × List Char)
  | _, [] => none
  | k + 1, c :: rest => (parseStringBody k rest).map (fun p => (c :: p.1, p.2))
  | 0, '"' :: rest => some ([], rest)
  | 0, '\\' :: 'u' :: h1 :: h2 :: h3 :: h4 :: '\\' :: 'u' :: k1 :: k2 :: k3 :: k4 :: rest =>
    match getu4 h1 h2 h3 h4 with
    | none => none
    | some hi =>
      if 0xD800 ≤ hi ∧ hi < 0xDC00 then
        match getu4 k1 k2 k3 k4 with
        | none => none
        | some lo =>
          if 0xDC00 ≤ lo ∧ lo < 0xE000 then
            (parseStringBody 0 rest).map
              (fun p => (encodeRune (0x10000 + (hi - 0xD800) * 1024 + (lo - 0xDC00)) ++ p.1, p.2))
          else
            (parseStringBody 0 ('\\' :: 'u' :: k1 :: k2 :: k3 :: k4 :: rest)).map
              (fun p => (encodeRune 0xFFFD ++ p.1, p.2))
      else
        (parseStringBody 0 ('\\' :: 'u' :: k1 :: k2 :: k3 :: k4 :: rest)).map
          (fun p => (encodeRune (if 0xDC00 ≤ hi ∧ hi < 0xE000 then 0xFFFD else hi) ++ p.1, p.2))
  | 0, '\\' :: 'u' :: h1 :: h2 :: h3 :: h4 :: rest =>
    match getu4 h1 h2 h3 h4 with
    | none => none
    | some r =>
      (parseStringBody 0 rest).map
        (fun p => (encodeRune (if 0xD800 ≤ r ∧ r < 0xE000 then 0xFFFD else r) ++ p.1, p.2))
  | 0, '\\' :: e :: rest =>
    let lit : Option Char :=
      if e = '"' then some '"' else if e = '\\' then some '\\' else if e = '/' then some '/'
      else if e = 'b' then some (Char.ofNat 8) else if e = 'f' then some (Char.ofNat 12)
      else if e = 'n' then some '\n' else if e = 'r' then some '\r'
      else if e = 't' then some '\t' else none
    match lit with
    | none => none
    | some c => (parseStringBody 0 rest).map (fun p => (c :: p.1, p.2))
  | 0, c :: rest =>
    if c.toNat < 0x20 ∨ c = '\\' then none
    else if c.toNat < 0x80 then (parseStringBody 0 rest).map (fun p => (c :: p.1, p.2))
    else
      match utf8SeqLen (c :: rest) with
      | 0 => (parseStringBody 0 rest).map (fun p => (encodeRune 0xFFFD ++ p.1, p.2))
      | n + 1 => (parseStringBody n rest).map (fun p => (c :: p.1, p.2))

/-- Longest run of decimal digits at the head of the input, and what follows. -/
def spanDigits : List Char → List Char × List Char
  | [] => ([], [])
  | c :: cs =>
    if '0' ≤ c ∧ c ≤ '9' then ((spanDigits cs).1.cons c, (spanDigits cs).2) else ([], c :: cs)

/-- Value of a run of decimal digits. -/
def natOfDigits (ds : List Char) : Nat :=
  ds.foldl (fun acc c => 10 * acc + (c.toNat - '0'.toNat)) 0

/-- Powers of ten. -/
def pow10 : Nat → Nat
  | 0 => 1
  | n + 1 => 10 * pow10 n

/-- The number 2^1024 - 2^970, half a unit in the last place above the largest
`float64`: the least magnitude that `strconv.ParseFloat` rounds to infinity
and reports as out of range. -/
def float64Limit : Nat :=
  179769313486231580793728971405303415079934132710037826936173778980444968292764750946649017977587207096330286416692887910946555547851940402630657488671505820681908902000708383676273854845817711531764475730270069855571366959622842914819860834936475292719074168444365510704342711559699508093042880177904174497792

/-- Whether the number with the given integer digits, fraction digits and
exponent is out of the range of `float64`, in which case `json.Unmarshal`
records an `UnmarshalTypeError`. -/
def overflowsFloat64 (int frac : List Char) (expNegative : Bool) (exp : List Char) : Bool :=
  let m := natOfDigits (int ++ frac)
  let e := natOfDigits exp
  if m = 0 then false
  else if expNegative then decide (float64Limit * pow10 (e + frac.length) ≤ m)
  else if frac.length ≤ e then decide (float64Limit ≤ m * pow10 (e - frac.length))
  else decide (float64Limit * pow10 (frac.length - e) ≤ m)

/-- JSON number: `-? (0 | [1-9][0-9]*) (. [0-9]+)? ([eE] [+-]? [0-9]+)?`. Returns
the literal, whether it is out of the range of `float64`, and the input that
follows it. -/
def parseNumber (cs : List Char) : Option (List Char × Bool × List Char) :=
  let (sign, cs1) := match cs with
    | '-' :: r => (['-'], r)
    | r => ([], r)
  let (int, cs2) := spanDigits cs1
  if int = [] ∨ (int.head? = some '0' ∧ int.length ≠ 1) then none
  else
    let fracPart : Option (List Char × List Char) := match cs2 with
      | '.' :: r =>
        let (ds, r2) := spanDigits r
        if ds = [] then none else some (ds, r2)
      | r => some ([], r)
    match fracPart with
    | none => none
    | some (frac, cs3) =>
      let expPart : Option (List Char × List Char × List Char) := match cs3 with
        | e :: r =>
          if e = 'e' ∨ e = 'E' then
            let (sg, r1) := match r with
              | '+' :: t => (['+'], t)
              | '-' :: t => (['-'], t)
              | t => ([], t)
            let (ds, r2) := spanDigits r1
            if ds = [] then none else some (e :: sg, ds, r2)
          else some ([], [], e :: r)
        | [] => some ([], [], [])
      match expPart with
      | none => none
      | some (mark, exp, cs4) =>
        some (sign ++ int ++ (if frac = [] then [] else '.' :: frac) ++ mark ++ exp,
          overflowsFloat64 int frac (decide ('-' ∈ mark)) exp, cs4)

/-- The decoder's limit on the nesting of arrays and objects. -/
def maxNestingDepth : Nat := 10000

/-- A value that is neither an object, an array nor a string: one of the
literals `true`, `false`, `null`, or a number. The result holds the value,
whether it is a number out of range, and the input that follows. -/
def parseScalar : List Char → Option (JVal × Bool × List Char)
  | 't' :: 'r' :: 'u' :: 'e' :: rest => some (JVal.bool true, false, rest)
  | 'f' :: 'a' :: 'l' :: 's' :: 'e' :: rest => some (JVal.bool false, false, rest)
  | 'n' :: 'u' :: 'l' :: 'l' :: rest => some (JVal.null, false, rest)
  | other => (parseNumber other).map (fun p => (JVal.num ⟨p.1⟩, p.2.1, p.2.2))

mutual
/-- One JSON value, preceded by optional white space, at the given nesting
depth. The result holds the value, whether an error was recorded while
decoding it (a number out of range; decoding goes on), and the input that
follows. `none` is a syntax error. The first argument bounds the recursion. -/
def parseValue : Nat → Nat → List Char → Option (JVal × Bool × List Char)
  | 0, _, _ => none
  | n + 1, depth, cs =>
    match skipWs cs with
    | [] => none
    | c :: rest =>
      if c = '{' then
        if maxNestingDepth ≤ depth then none
        else
          match skipWs rest with
          | [] => none
          | c2 :: rest2 =>
            if c2 = '}' then some (JVal.obj [], false, rest2)
            else parseMembers n (depth + 1) (c2 :: rest2) [] false
      else if c = '[' then
        if maxNestingDepth ≤ depth then none
        else
          match skipWs rest with
          | [] => none
          | c2 :: rest2 =>
            if c2 = ']' then some (JVal.arr [], false, rest2)
            else parseElements n (depth + 1) (c2 :: rest2) [] false
      else if c = '"' then
        (parseStringBody 0 rest).map (fun p => (JVal.str ⟨p.1⟩, false, p.2))
      else parseScalar (c :: rest)
/-- The elements of an array after its opening bracket (at least one). -/
def parseElements : Nat → Nat → List Char → List JVal → Bool → Option (JVal × Bool × List Char)
  | 0, _, _, _, _ => none
  | n + 1, depth, cs, acc, saved =>
    match parseValue n depth cs with
    | none => none
    | some (v, bad, rest) =>
      match skipWs rest with
      | [] => none
      | c :: rest2 =>
        if c = ',' then parseElements n depth rest2 (acc ++ [v]) (saved || bad)
        else if c = ']' then some (JVal.arr (acc ++ [v]), saved || bad, rest2)
        else none
/-- The members of an object after its opening brace (at least one). -/
def parseMembers : Nat → Nat → List Char → List (String × JVal) → Bool →
    Option (JVal × Bool × List Char)
  | 0, _, _, _, _ => none
  | n + 1, depth, cs, acc, saved =>
    match skipWs cs with
    | [] => none
    | q :: rest =>
      if q ≠ '"' then none
      else
        match parseStringBody 0 rest with
        | none => none
        | some (key, rest1) =>
          match skipWs rest1 with
          | [] => none
          | colon :: rest2 =>
            if colon ≠ ':' then none
            else
              match parseValue n depth rest2 with
              | none => none
              | some (v, bad, rest3) =>
                match skipWs rest3 with
                | [] => none
                | c :: rest4 =>
                  if c = ',' then parseMembers n depth rest4 (setMember ⟨key⟩ v acc) (saved || bad)
                  else if c = '}' then
                    some (JVal.obj (setMember ⟨key⟩ v acc), saved || bad, rest4)
                  else none
end

/-- `json.Unmarshal([]byte(data), &payload)` with `payload` of type
`interface{}`: the decoded value, or an error. The whole input must be one
JSON value surrounded by optional white space, nested no deeper than
`maxNestingDepth`; a number out of the range of `float64` anywhere in the
input makes the call return an error although the syntax is valid. -/
def jsonUnmarshal (data : String) : Except GoError JVal :=
  match parseValue (2 * data.length + 2) 0 data.data with
  | none => .error "invalid JSON input"
  | some (v, bad, rest) =>
    if skipWs rest ≠ [] then .error "invalid character after top-level value"
    else if bad then .error "json: cannot unmarshal number into Go value of type float64"
    else .ok v

/-! ## `jsonpointer.Get` (github.com/mattn/go-jsonpointer) -/

/-- Value of a run of decimal digits. -/
def digitsValue : List Char → Nat → Option Nat
  | [], acc => some acc
  | c :: cs, acc =>
    if '0' ≤ c ∧ c ≤ '9' then digitsValue cs (10 * acc + (c.toNat - '0'.toNat)) else none

/-- `strconv.Atoi`: an optional sign and at least one decimal digit, within
the range of a 64-bit `int`. -/
def Atoi (s : String) : Option Int :=
  let signed : Bool × List Char := match s.data with
    | '-' :: r => (true, r)
    | '+' :: r => (false, r)
    | r => (false, r)
  if signed.2 = [] then none
  else
    match digitsValue signed.2 0 with
    | none => none
    | some n =>
      if signed.1 then (if n ≤ 2 ^ 63 then some (-(n : Int)) else none)
      else (if n < 2 ^ 63 then some (n : Int) else none)

/-- One reference token applied to a value: an integer token indexes an array,
any token selects the member of that name in an object. `none` stands for the
reflection panic (index out of range, token applied to a value that is
neither, missing member) that `Get` recovers from and reports as an error. -/
def pointerStep (v : JVal) (token : String) : Option JVal :=
  match v with
  | .arr items =>
    match Atoi token with
    | some n => if 0 ≤ n then items.get? n.toNat else none
    | none => none
  | .obj members => getMember token members
  | _ => none

/-- All the reference tokens applied in turn. -/
def pointerWalk : JVal → List String → Option JVal
  | v, [] => some v
  | v, token :: tokens =>
    match pointerStep v token with
    | none => none
    | some w => pointerWalk w tokens

/-- `jsonpointer.Get(obj, pointer)`: the value the pointer designates inside
the decoded document, or an error when the pointer does not start with `/` or
designates nothing. The empty pointer designates the document. The pointers of
this program hold no `~` escape, so escapes are not decoded. The library walks
the value by reflection and turns every reflection panic into the error. -/
def jsonpointerGet (obj : JVal) (pointer : String) : Except GoError JVal :=
  match pointer.data with
  | [] => .ok obj
  | '/' :: rest =>
    match pointerWalk obj ((splitAt '/' rest).map String.mk) with
    | some v => .ok v
    | none => .error ("Invalid JSON pointer: " ++ pointer)
  | _ => .error ("Invalid JSON pointer: " ++ pointer)

/-! ## `getCallbackIDFromPayload` -/

/-- Type assertion `x.(string)` in its one-result form: it yields the string
when the dynamic type is `string` and panics otherwise, also on `nil`. -/
def assertString : JVal → Outcome String
  | .str s => .ok s
  | _ => .panic "interface conversion: not string"

/-- Assignment `iCallbackID, _ = jsonpointer.Get(payload, pointer)`: the error
is discarded, and on error the value is `nil`. -/
def getDiscardingError (payload : JVal) (pointer : String) : JVal :=
  match jsonpointerGet payload pointer with
  | .ok v => v
  | .error _ => JVal.null

/-- Function `getCallbackIDFromPayload(payloadJSON string) (string, error)`. -/
def getCallbackIDFromPayload (payloadJSON : String) : Outcome (String × Option GoError) :=
  match jsonUnmarshal payloadJSON with
  | .error err => .ok ("", some err)
  | .ok payload =>
    match jsonpointerGet payload "/type" with
    | .error err => .ok ("", some err)
    | .ok iRequestType =>
      match assertString iRequestType with
      | .panic msg => .panic msg
      | .fatal msg => .fatal msg
      | .ok requestType =>
        let iCallbackID : JVal :=
          if requestType = "shortcut" then getDiscardingError payload "/callback_id"
          else if requestType = "view_submission" then
            getDiscardingError payload "/view/callback_id"
          else if requestType = "block_actions" then
            getDiscardingError payload "/actions/0/action_id"
          else JVal.null
        match assertString iCallbackID with
        | .panic msg => .panic msg
        | .fatal msg => .fatal msg
        | .ok callbackID => .ok (callbackID, none)

/-! ## The director -/

/-- What the body of the request handed to the director yields when it is read
to its end: nothing to read from (the proxy sets a nil body on a request whose
content length is 0), its bytes, or a read error. -/
inductive Body where
  | absent
  | bytes (buffer : String)
  | broken (err : GoError)
deriving DecidableEq, Repr

/-- The fields of `http.Request` that the director reads or writes. -/
structure Request where
  Method : String
  URL : URL
  Header : List (String × List String)
  Body : Body
  Host : String
deriving DecidableEq, Repr

/-- `hasPort` of `net/http`: a colon stands after the last `]`. -/
def hasPort (host : List Char) : Bool :=
  match cutLast ':' host with
  | some p => ']' ∉ p.2
  | none => false

/-- `removeEmptyPort` of `net/http`: a host that ends in a colon loses it. -/
def removeEmptyPort (host : List Char) : List Char :=
  if hasPort host ∧ host.getLast? = some ':' then host.dropLast else host

/-- `http.NewRequest(method, url, bytes.NewBuffer(buffer))`: the URL text is
parsed, an empty port is removed from the host, and the new request has an
empty header, the given bytes as its body and the host of the URL as its
`Host`. The error is that of `url.Parse`. The server only passes on requests
whose method is a valid token, which `NewRequest` accepts and keeps. -/
def NewRequest (method : String) (url : String) (buffer : String) : Except GoError Request :=
  match Parse url with
  | .error err => .error err
  | .ok u =>
    .ok { Method := method, URL := { u with Host := ⟨removeEmptyPort u.Host.data⟩ },
          Header := [], Body := Body.bytes buffer, Host := ⟨removeEmptyPort u.Host.data⟩ }

/-- Loop `for _, backendConfig := range serverConfig.Backends` of the
director: the first entry whose `CallbackPrefix` equals `callbackPrefix` sets
the host and ends the loop. -/
def selectBackend (callbackPrefix : String) (requestURL : URL) : List BackendConfig → URL
  | [] => requestURL
  | backendConfig :: backends =>
    if backendConfig.CallbackPrefix = callbackPrefix then
      { requestURL with Host := backendConfig.Host }
    else selectBackend callbackPrefix requestURL backends

/-- Lines 138 to 151 of the director: the scheme is set, then the host if the
callback id is not empty and a backend matches. -/
def rewriteURL (backends : List BackendConfig) (callbackID : String) (requestURL : URL) : URL :=
  let requestURL := { requestURL with Scheme := "http" }
  if callbackID.length > 0 then
    let callbackPrefix := ReplaceAllString callbackID
    selectBackend callbackPrefix requestURL backends
  else requestURL

/-- The closure `director` of `main`, with `serverConfig.Backends` as its
first argument. The result is the request that replaces `*request`. Reading a
nil body panics, a read error and an error of `http.NewRequest` end the
process through `log.Fatal`. -/
def director (backends : List BackendConfig) (request : Request) : Outcome Request :=
  match request.Body with
  | .absent => .panic "invalid memory address or nil pointer dereference"
  | .broken err => .fatal err
  | .bytes buffer =>
    let params := (ParseQuery buffer).1
    let payloadJSON := params.Get "payload"
    match getCallbackIDFromPayload payloadJSON with
    | .panic msg => .panic msg
    | .fatal msg => .fatal msg
    | .ok (callbackID, _) =>
      let requestURL := rewriteURL backends callbackID request.URL
      match NewRequest request.Method requestURL.String buffer with
      | .error err => .fatal err
      | .ok req => .ok { req with Header := request.Header }

/-! ## Vocabulary of the specification -/

/-- The two-character marker `__`. -/
def marker : List Char := ['_', '_']

/-- Whether the marker occurs in the text (executable form of
`marker <:+: l`, see `hasMarker_iff`). -/
def hasMarker : List Char → Bool
  | c :: d :: cs => (c = '_' ∧ d = '_') || hasMarker (d :: cs)
  | _ => false

/-- The specification's normalization, in its own words: the text strictly
before the first occurrence of the marker, or the whole text when the marker
does not occur (see `truncateAtMarker_spec`). -/
def truncateAtMarker : List Char → List Char
  | c :: d :: cs => if c = '_' ∧ d = '_' then [] else c :: truncateAtMarker (d :: cs)
  | l => l

/-- The bytes of a plain host name: letters, digits and `-._~`. -/
def hostNameBytes : List Char :=
  "abcdefghijklmnopqrstuvwxyzABCDEFGHIJKLMNOPQRSTUVWXYZ0123456789-._~".data

/-- The decimal digits. -/
def digitBytes : List Char := "0123456789".data

/-- The bytes that a path holds without escaping: letters, digits and
`-_.~$&+,/:;=@`. -/
def pathBytes : List Char :=
  "abcdefghijklmnopqrstuvwxyzABCDEFGHIJKLMNOPQRSTUVWXYZ0123456789-_.~$&+,/:;=@".data

/-- A plain host: a name of letters, digits and `-._~` (possibly empty, as in
the URL of a request in origin form), optionally followed by a colon and a
port of at least one digit. -/
def plainHost (host : String) : Bool :=
  match cut ':' host.data with
  | none => host.data.all (fun c => c ∈ hostNameBytes)
  | some p => p.1.all (fun c => c ∈ hostNameBytes) ∧ p.2 ≠ [] ∧ p.2.all (fun c => c ∈ digitBytes)

/-- A plain path: it starts with `/` and holds only bytes that need no
escaping. -/
def plainPath (path : String) : Bool :=
  path.data.head? = some '/' ∧ path.data.all (fun c => c ∈ pathBytes)

/-- A plain query: no control byte and no `#`. -/
def plainQuery (query : String) : Bool :=
  query.data.all (fun c => 0x20 ≤ c.toNat ∧ c.toNat ≠ 0x7f ∧ c ≠ '#')

/-- A plain URL, as the server produces it for an ordinary request: a plain
host (empty for a request in origin form), a plain path, a plain query, and
nothing else (no opaque part, no user, no raw path, no fragment). -/
def plainURL (u : URL) : Bool :=
  u.Opaque = "" ∧ u.User = none ∧ u.RawPath = "" ∧ u.OmitHost = false ∧ u.ForceQuery = false ∧
    u.Fragment = "" ∧ plainHost u.Host ∧ plainPath u.Path ∧ plainQuery u.RawQuery

/-! ## Sample configuration and requests -/

/-- A route table in which one entry is a proper prefix of another and two
entries carry the same prefix. -/
def sampleBackends : List BackendConfig :=
  [⟨"approve", "b0:9000"⟩, ⟨"approve_req", "b1:9001"⟩, ⟨"approve_req", "b2:9002"⟩]

/-- An inbound request as the server hands it to the proxy: a POST in origin
form, whose URL has neither scheme nor host, with the given body. -/
def inbound (buffer : String) : Request :=
  { Method := "POST",
    URL := { Scheme := "", Host := "", Path := "/slack/events", RawQuery := "" },
    Header := [("Content-Type", ["application/x-www-form-urlencoded"])],
    Body := Body.bytes buffer,
    Host := "gateway.example.com" }

/-- An inbound POST whose request target is the given text, as
`url.ParseRequestURI` reads it (the empty URL when the target is refused). -/
def inboundAt (target buffer : String) : Request :=
  { Method := "POST",
    URL := match ParseRequestURI target with
      | .ok u => u
      | .error _ => {},
    Header := [("Content-Type", ["application/x-www-form-urlencoded"])],
    Body := Body.bytes buffer,
    Host := "gateway.example.com" }

/-- A request body whose `payload` is
`{"type":"shortcut","callback_id":"approve_req__42"}`. -/
def shortcutBody : String :=
  "payload=%7B%22type%22%3A%22shortcut%22%2C%22callback_id%22%3A%22approve_req__42%22%7D"

/-- A request body whose `payload` is
`{"type":"block_actions","actions":[{"action_id":"deny__7"}]}`. -/
def blockActionsBody : String :=
  "payload=%7B%22type%22%3A%22block_actions%22%2C%22actions%22%3A%5B%7B%22action_id%22%3A%22deny__7%22%7D%5D%7D"

/-- The request that the director leaves behind for a sample inbound request:
the inbound method and header, the given URL and body, and the host of the
URL as `Host`. -/
def outbound (u : URL) (buffer : String) : Request :=
  { Method := "POST",
    URL := u,
    Header := [("Content-Type", ["application/x-www-form-urlencoded"])],
    Body := Body.bytes buffer,
    Host := u.Host }

/-! ## Sample payload texts -/

/-- JSON white space. -/
def isWs (c : Char) : Bool := c = ' ' ∨ c = '\t' ∨ c = '\r' ∨ c = '\n'

/-- A byte that stands for itself inside a JSON string: printable ASCII other
than the quote and the backslash. -/
def plainStringByte (c : Char) : Bool :=
  0x20 ≤ c.toNat ∧ c.toNat < 0x80 ∧ c ≠ '"' ∧ c ≠ '\\'

/-- The tokens of a JSON text with the same white space `w` before, between
and after them. -/
def padded (w : List Char) : List (List Char) → List Char
  | [] => w
  | token :: tokens => w ++ token ++ padded w tokens

/-- The JSON string `"s"`. -/
def quoted (s : List Char) : List Char := '"' :: s ++ ['"']

/-- The bytes of a word of a sample payload. -/
def word (s : String) : List Char := s.data

/-- The payload `{"type":"shortcut","callback_id":"s"}` with the white space
`w` around every token. -/
def shortcutText (w s : List Char) : String :=
  ⟨padded w [['{'], quoted (word "type"), [':'], quoted (word "shortcut"), [','],
    quoted (word "callback_id"), [':'], quoted s, ['}']]⟩

/-- The payload
`{"type":"view_submission","callback_id":"t","view":{"callback_id":"s"}}` with
the white space `w` around every token. -/
def viewSubmissionText (w t s : List Char) : String :=
  ⟨padded w [['{'], quoted (word "type"), [':'], quoted (word "view_submission"), [','],
    quoted (word "callback_id"), [':'], quoted t, [','],
    quoted (word "view"), [':'], ['{'], quoted (word "callback_id"), [':'], quoted s, ['}'],
    ['}']]⟩

/-- The payload
`{"type":"block_actions","actions":[{"action_id":"s"},{"action_id":"t"}]}`
with the white space `w` around every token. -/
def blockActionsText (w s t : List Char) : String :=
  ⟨padded w [['{'], quoted (word "type"), [':'], quoted (word "block_actions"), [','],
    quoted (word "actions"), [':'], ['['],
    ['{'], quoted (word "action_id"), [':'], quoted s, ['}'], [','],
    ['{'], quoted (word "action_id"), [':'], quoted t, ['}'], [']'],
    ['}']]⟩

/-! ## The scanner for the pattern `__.*` -/

theorem rr_true_cons (c : Char) (cs : List Char) :
    reReplaceAll true (c :: cs) =
      if c = '\n' then c :: reReplaceAll false cs else reReplaceAll true cs := rfl

theorem rr_false_marker (rest : List Char) :
    reReplaceAll false ('_' :: '_' :: rest) = reReplaceAll true rest := rfl

theorem rr_false_single (c : Char) : reReplaceAll false [c] = [c] := by
  unfold reReplaceAll
  split <;> simp_all [reReplaceAll]

theorem rr_false_ne (c : Char) (cs : List Char) (h : c ≠ '_') :
    reReplaceAll false (c :: cs) = c :: reReplaceAll false cs := by
  rw [reReplaceAll]
  intro a b; simp_all

theorem rr_false_ne2 (c d : Char) (cs : List Char) (h : d ≠ '_') :
    reReplaceAll false (c :: d :: cs) = c :: reReplaceAll false (d :: cs) := by
  rw [reReplaceAll]
  intro a b; simp_all

/-- Outside a match, a character that does not open the marker is copied. -/
theorem rr_false_step (c d : Char) (cs : List Char) (h : ¬ (c = '_' ∧ d = '_')) :
    reReplaceAll false (c :: d :: cs) = c :: reReplaceAll false (d :: cs) := by
  by_cases hc : c = '_'
  · exact rr_false_ne2 c d cs (fun hd => h ⟨hc, hd⟩)
  · exact rr_false_ne c (d :: cs) hc

theorem hasMarker_cons (c : Char) (l : List Char) :
    hasMarker (c :: l) = (decide (c = '_' ∧ l.head? = some '_') || hasMarker l) := by
  cases l with
  | nil => simp [hasMarker]
  | cons d cs => simp [hasMarker]

/-- The executable test agrees with "the marker occurs in the text". -/
theorem hasMarker_iff (l : List Char) : hasMarker l = true ↔ marker <:+: l := by
  induction l with
  | nil => simp [hasMarker, marker]
  | cons c l ih =>
    rw [hasMarker_cons, Bool.or_eq_true, ih]
    constructor
    · rintro (h | h)
      · simp only [decide_eq_true_eq] at h
        obtain ⟨rfl, hl⟩ := h
        cases l with
        | nil => simp at hl
        | cons d cs =>
          simp only [List.head?_cons, Option.some.injEq] at hl
          subst hl
          exact ⟨[], cs, rfl⟩
      · exact h.trans (List.suffix_cons c l).isInfix
    · rintro ⟨pre, post, h⟩
      cases pre with
      | nil =>
        left
        simp only [marker, List.nil_append, List.cons_append, List.cons.injEq] at h
        obtain ⟨rfl, rfl⟩ := h
        simp
      | cons p pre =>
        right
        simp only [List.cons_append, List.cons.injEq] at h
        exact ⟨pre, post, h.2⟩

theorem hasMarker_eq_false_iff (l : List Char) : hasMarker l = false ↔ ¬ marker <:+: l := by
  rw [← hasMarker_iff, Bool.not_eq_true]

/-- Inside a match, text without a line feed is dropped whole. -/
theorem rr_true_of_no_newline (l : List Char) (h : '\n' ∉ l) : reReplaceAll true l = [] := by
  induction l with
  | nil => rfl
  | cons c cs ih =>
    simp only [List.mem_cons, not_or] at h
    rw [rr_true_cons, if_neg (fun hc => h.1 hc.symm)]
    exact ih h.2

/-- Whatever the state of the scanner, its output holds no marker, and the
output of a scan that starts inside a match does not begin with `_`. -/
theorem rr_head_and_marker (n : Nat) : ∀ l : List Char, l.length ≤ n →
    hasMarker (reReplaceAll false l) = false ∧ hasMarker (reReplaceAll true l) = false ∧
      (reReplaceAll true l).head? ≠ some '_' := by
  induction n with
  | zero =>
    intro l hl
    have : l = [] := List.length_eq_zero.mp (Nat.le_zero.mp hl)
    subst this
    simp [reReplaceAll, hasMarker]
  | succ n ih =>
    intro l hl
    cases l with
    | nil => simp [reReplaceAll, hasMarker]
    | cons c cs =>
      have hcs : cs.length ≤ n := by simpa using hl
      obtain ⟨ihf, iht, ihh⟩ := ih cs hcs
      refine ⟨?_, ?_, ?_⟩
      · cases cs with
        | nil => rw [rr_false_single]; rfl
        | cons d ds =>
          by_cases hm : c = '_' ∧ d = '_'
          · obtain ⟨rfl, rfl⟩ := hm
            rw [rr_false_marker]
            exact (ih ds (by simp at hcs; omega)).2.1
          · rw [rr_false_step c d ds hm, hasMarker_cons, ihf, Bool.or_false]
            by_cases hc : c = '_'
            · have hd : d ≠ '_' := fun hd => hm ⟨hc, hd⟩
              rw [rr_false_ne d ds hd]
              simp [hd]
            · simp [hc]
      · rw [rr_true_cons]
        split
        · next hc =>
          rw [hasMarker_cons, ihf, Bool.or_false]
          subst hc
          simp
        · exact iht
      · rw [rr_true_cons]
        split
        · next hc => subst hc; simp
        · exact ihh

theorem rr_no_marker (l : List Char) : hasMarker (reReplaceAll false l) = false :=
  (rr_head_and_marker l.length l le_rfl).1

/-- Text without a marker is copied unchanged. -/
theorem rr_false_of_no_marker (l : List Char) (h : hasMarker l = false) :
    reReplaceAll false l = l := by
  induction l with
  | nil => rfl
  | cons c cs ih =>
    cases cs with
    | nil => exact rr_false_single c
    | cons d ds =>
      simp only [hasMarker, Bool.or_eq_false_iff, decide_eq_false_iff_not] at h
      rw [rr_false_step c d ds h.1, ih h.2]

/-- The scanner computes the truncation when no line feed stands in the part
that the truncation drops. -/
theorem rr_eq_truncate (l : List Char)
    (h : '\n' ∉ l.drop (truncateAtMarker l).length) :
    reReplaceAll false l = truncateAtMarker l := by
  induction l with
  | nil => rfl
  | cons c cs ih =>
    cases cs with
    | nil => exact rr_false_single c
    | cons d ds =>
      by_cases hm : c = '_' ∧ d = '_'
      · simp only [truncateAtMarker, if_pos hm, List.length_nil, List.drop_zero] at h ⊢
        obtain ⟨rfl, rfl⟩ := hm
        rw [rr_false_marker]
        exact rr_true_of_no_newline ds (fun hin => h (by simp [hin]))
      · simp only [truncateAtMarker, if_neg hm, List.length_cons, List.drop_succ_cons] at h ⊢
        rw [rr_false_step c d ds hm, ih h]

theorem truncate_of_no_marker (l : List Char) (h : hasMarker l = false) :
    truncateAtMarker l = l := by
  induction l with
  | nil => rfl
  | cons c cs ih =>
    cases cs with
    | nil => rfl
    | cons d ds =>
      simp only [hasMarker, Bool.or_eq_false_iff, decide_eq_false_iff_not] at h
      simp only [truncateAtMarker, if_neg h.1, ih h.2]

theorem truncate_step (c d : Char) (cs : List Char) (h : ¬ (c = '_' ∧ d = '_')) :
    truncateAtMarker (c :: d :: cs) = c :: truncateAtMarker (d :: cs) := by
  simp only [truncateAtMarker, if_neg h]

theorem hasMarker_step (c d : Char) (cs : List Char) :
    hasMarker (c :: d :: cs) = false ↔ ¬ (c = '_' ∧ d = '_') ∧ hasMarker (d :: cs) = false := by
  simp only [hasMarker, Bool.or_eq_false_iff, decide_eq_false_iff_not]

theorem truncate_append (pre post : List Char) (h : hasMarker (pre ++ ['_']) = false) :
    truncateAtMarker (pre ++ '_' :: '_' :: post) = pre := by
  induction pre with
  | nil => simp [truncateAtMarker]
  | cons c cs ih =>
    cases cs with
    | nil =>
      have hc : c ≠ '_' := by
        intro hc
        subst hc
        simp [hasMarker] at h
      simp [truncateAtMarker, hc]
    | cons d ds =>
      have h2 := (hasMarker_step c d (ds ++ ['_'])).mp h
      have h3 := ih h2.2
      show truncateAtMarker (c :: d :: (ds ++ '_' :: '_' :: post)) = c :: d :: ds
      rw [truncate_step c d _ h2.1]
      exact congrArg (List.cons c) h3

/-- The function `truncateAtMarker` is the truncation at the first occurrence
of the marker: the whole text when the marker does not occur, and `pre` when
the text is `pre ++ marker ++ post` with no occurrence that starts inside
`pre`. -/
theorem truncateAtMarker_spec (l : List Char) :
    (¬ marker <:+: l → truncateAtMarker l = l) ∧
    (∀ pre post, l = pre ++ marker ++ post → ¬ marker <:+: pre ++ ['_'] →
      truncateAtMarker l = pre) := by
  constructor
  · intro h
    exact truncate_of_no_marker l ((hasMarker_eq_false_iff l).mpr h)
  · rintro pre post rfl h
    have := truncate_append pre post ((hasMarker_eq_false_iff _).mpr h)
    simpa [marker] using this

theorem hasMarker_snoc (l : List Char) (h1 : hasMarker l = false)
    (h2 : l.getLast? ≠ some '_') : hasMarker (l ++ ['_']) = false := by
  induction l with
  | nil => rfl
  | cons c cs ih =>
    cases cs with
    | nil =>
      have hc : c ≠ '_' := by simpa using h2
      simp [hasMarker, hc]
    | cons d ds =>
      have h1s := (hasMarker_step c d ds).mp h1
      have h3 : (d :: ds).getLast? ≠ some '_' := by
        simpa [List.getLast?_cons_cons] using h2
      have h4 := ih h1s.2 h3
      show hasMarker (c :: d :: (ds ++ ['_'])) = false
      exact (hasMarker_step c d _).mpr ⟨h1s.1, h4⟩

/-- C10. For every string `raw`, the result of the director's normalization
(every match of `__.*` replaced by the empty string, `.` not matching a line
feed) contains no occurrence of `__`, and normalizing it again returns it
unchanged. -/
theorem normalized_key_has_no_marker_and_is_fixed (raw : String) :
    ¬ marker <:+: (ReplaceAllString raw).data ∧
      ReplaceAllString (ReplaceAllString raw) = ReplaceAllString raw := by
  have h := rr_no_marker raw.data
  constructor
  · exact (hasMarker_eq_false_iff _).mp h
  · show String.mk (reReplaceAll false (reReplaceAll false raw.data)) = _
    rw [rr_false_of_no_marker _ h]
    rfl

/-- C2, as stated, fails. A line feed after the first marker ends the match, so
the text after it survives: `a__b\nc` normalizes to `a\nc`, its truncation is
`a`. And a key `X ++ "__" ++ suffix` does not normalize to `X` when `X` ends in
`_` (here `a_`, which holds no marker) or when the suffix holds a line feed. -/
theorem normalize_differs_from_truncation :
    ReplaceAllString "a__b\nc" = "a\nc" ∧
    String.mk (truncateAtMarker "a__b\nc".data) = "a" ∧
    ReplaceAllString "a__b\nc" ≠ String.mk (truncateAtMarker "a__b\nc".data) ∧
    (¬ marker <:+: "a_".data ∧ ReplaceAllString ("a_" ++ "__" ++ "b") ≠ "a_") ∧
    (¬ marker <:+: "a".data ∧ ReplaceAllString ("a" ++ "__" ++ "b\nc") ≠ "a") := by
  refine ⟨by decide, by decide, by decide, ⟨?_, by decide⟩, ⟨?_, by decide⟩⟩
  · exact (hasMarker_eq_false_iff _).mp (by decide)
  · exact (hasMarker_eq_false_iff _).mp (by decide)

/-- C2, amended. For every routing key `raw` in which no line feed follows the
first occurrence of `__`, the normalized key is `raw` truncated at that first
occurrence (`raw` itself when it holds no `__`). Consequently, for every `X`
that holds no `__` and does not end in `_`, and every suffix that holds no line
feed, the key `X ++ "__" ++ suffix` normalizes to `X`. -/
theorem normalize_truncates_at_first_marker :
    (∀ raw : String, '\n' ∉ raw.data.drop (truncateAtMarker raw.data).length →
      ReplaceAllString raw = String.mk (truncateAtMarker raw.data)) ∧
    (∀ X suffix : String, ¬ marker <:+: X.data → X.data.getLast? ≠ some '_' →
      '\n' ∉ suffix.data → ReplaceAllString (X ++ "__" ++ suffix) = X) := by
  constructor
  · intro raw h
    show String.mk (reReplaceAll false raw.data) = _
    rw [rr_eq_truncate raw.data h]
  · intro X suffix hX hlast hnl
    have hsnoc := hasMarker_snoc X.data ((hasMarker_eq_false_iff _).mpr hX) hlast
    have htr := truncate_append X.data suffix.data hsnoc
    have hdata : (X ++ "__" ++ suffix).data = X.data ++ '_' :: '_' :: suffix.data := by
      simp [String.data_append]
    show String.mk (reReplaceAll false (X ++ "__" ++ suffix).data) = X
    rw [hdata, rr_eq_truncate _ (by
      rw [htr]
      simp only [List.drop_left]
      simpa using hnl), htr]

theorem normalize_truncates_at_first_marker_witness :
    ReplaceAllString "approve_req__42" = String.mk (truncateAtMarker "approve_req__42".data) ∧
    ReplaceAllString ("form\nsubmit" ++ "__" ++ "abc123") = "form\nsubmit" :=
  ⟨normalize_truncates_at_first_marker.1 "approve_req__42" (by decide),
   normalize_truncates_at_first_marker.2 "form\nsubmit" "abc123"
     ((hasMarker_eq_false_iff _).mp (by decide)) (by decide) (by decide)⟩

theorem skipWs_cons_ws (c : Char) (rest : List Char) (h : isWs c = true) :
    skipWs (c :: rest) = skipWs rest := by
  simp only [isWs, Bool.decide_or, Bool.or_eq_true, decide_eq_true_eq] at h
  simp only [skipWs]
  rw [if_pos (by tauto)]

theorem skipWs_cons_not (c : Char) (rest : List Char) (h : isWs c = false) :
    skipWs (c :: rest) = c :: rest := by
  simp only [isWs, Bool.decide_or, Bool.or_eq_false_iff, decide_eq_false_iff_not] at h
  simp only [skipWs]
  rw [if_neg (by tauto)]

theorem skipWs_pad (w : List Char) (c : Char) (rest : List Char)
    (hw : ∀ x ∈ w, isWs x = true) (hc : isWs c = false) :
    skipWs (w ++ c :: rest) = c :: rest := by
  induction w with
  | nil => exact skipWs_cons_not c rest hc
  | cons x xs ih =>
    show skipWs (x :: (xs ++ c :: rest)) = c :: rest
    rw [skipWs_cons_ws x _ (hw x (List.mem_cons_self x xs)),
      ih (fun y hy => hw y (List.mem_cons_of_mem x hy))]

theorem skipWs_all (w : List Char) (hw : ∀ x ∈ w, isWs x = true) : skipWs w = [] := by
  induction w with
  | nil => rfl
  | cons x xs ih =>
    rw [skipWs_cons_ws x _ (hw x (List.mem_cons_self x xs)),
      ih (fun y hy => hw y (List.mem_cons_of_mem x hy))]

theorem parseStringBody_cons_plain (c : Char) (rest : List Char) (h : plainStringByte c = true) :
    parseStringBody 0 (c :: rest) = (parseStringBody 0 rest).map (fun p => (c :: p.1, p.2)) := by
  simp only [plainStringByte, Bool.decide_and, Bool.and_eq_true, decide_eq_true_eq] at h
  obtain ⟨h1, h2, h3, h4⟩ := h
  rw [parseStringBody]
  · rw [if_neg (by
      rintro (hlt | hbs)
      · omega
      · exact h4 hbs), if_pos h2]
  · intro r; exact h3 r
  · intro a b c d e f g i j k _; exact h4 k
  · intro a b c d r hr _; exact h4 hr
  · intro e r hr _; exact h4 hr

theorem parseStringBody_plain (s rest : List Char) (hs : ∀ c ∈ s, plainStringByte c = true) :
    parseStringBody 0 (s ++ '"' :: rest) = some (s, rest) := by
  induction s with
  | nil => simp [parseStringBody]
  | cons c cs ih =>
    show parseStringBody 0 (c :: (cs ++ '"' :: rest)) = some (c :: cs, rest)
    rw [parseStringBody_cons_plain c _ (hs c (List.mem_cons_self c cs)),
      ih (fun y hy => hs y (List.mem_cons_of_mem c hy))]
    rfl

/-- A string value, after white space. -/
theorem parseValue_string (n depth : Nat) (w s rest : List Char)
    (hw : ∀ x ∈ w, isWs x = true) (hs : ∀ c ∈ s, plainStringByte c = true) :
    parseValue (n + 1) depth (w ++ '"' :: (s ++ '"' :: rest)) =
      some (JVal.str ⟨s⟩, false, rest) := by
  rw [parseValue, skipWs_pad w '"' _ hw (by decide)]
  simp only [parseStringBody_plain s rest hs, Option.map_some']
  simp

/-- An object with at least one member, after white space: the members are
read one nesting level deeper. -/
theorem parseValue_object (n depth : Nat) (w w1 rest : List Char)
    (hw : ∀ x ∈ w, isWs x = true) (hw1 : ∀ x ∈ w1, isWs x = true)
    (hdepth : depth < maxNestingDepth) :
    parseValue (n + 1) depth (w ++ '{' :: (w1 ++ '"' :: rest)) =
      parseMembers n (depth + 1) ('"' :: rest) [] false := by
  rw [parseValue, skipWs_pad w '{' _ hw (by decide)]
  simp only [if_neg (Nat.not_le.mpr hdepth), skipWs_pad w1 '"' _ hw1 (by decide)]
  simp

/-- An array with at least one element that is an object, after white space. -/
theorem parseValue_array (n depth : Nat) (w w1 rest : List Char)
    (hw : ∀ x ∈ w, isWs x = true) (hw1 : ∀ x ∈ w1, isWs x = true)
    (hdepth : depth < maxNestingDepth) :
    parseValue (n + 1) depth (w ++ '[' :: (w1 ++ '{' :: rest)) =
      parseElements n (depth + 1) ('{' :: rest) [] false := by
  rw [parseValue, skipWs_pad w '[' _ hw (by decide)]
  simp only [if_neg (Nat.not_le.mpr hdepth), skipWs_pad w1 '{' _ hw1 (by decide)]
  simp

/-- One member that is followed by a comma. -/
theorem parseMembers_comma (n depth : Nat) (w w1 w2 key value rest : List Char) (v : JVal)
    (bad saved : Bool) (acc : List (String × JVal))
    (hw : ∀ x ∈ w, isWs x = true) (hw1 : ∀ x ∈ w1, isWs x = true)
    (hw2 : ∀ x ∈ w2, isWs x = true)
    (hkey : ∀ c ∈ key, plainStringByte c = true)
    (hvalue : parseValue n depth value = some (v, bad, w2 ++ ',' :: rest)) :
    parseMembers (n + 1) depth (w ++ '"' :: (key ++ '"' :: (w1 ++ ':' :: value))) acc saved =
      parseMembers n depth rest (setMember ⟨key⟩ v acc) (saved || bad) := by
  rw [parseMembers, skipWs_pad w '"' _ hw (by decide)]
  simp only [parseStringBody_plain key _ hkey, skipWs_pad w1 ':' _ hw1 (by decide), hvalue,
    skipWs_pad w2 ',' _ hw2 (by decide)]
  simp

/-- The last member of an object. -/
theorem parseMembers_last (n depth : Nat) (w w1 w2 key value rest : List Char) (v : JVal)
    (bad saved : Bool) (acc : List (String × JVal))
    (hw : ∀ x ∈ w, isWs x = true) (hw1 : ∀ x ∈ w1, isWs x = true)
    (hw2 : ∀ x ∈ w2, isWs x = true)
    (hkey : ∀ c ∈ key, plainStringByte c = true)
    (hvalue : parseValue n depth value = some (v, bad, w2 ++ '}' :: rest)) :
    parseMembers (n + 1) depth (w ++ '"' :: (key ++ '"' :: (w1 ++ ':' :: value))) acc saved =
      some (JVal.obj (setMember ⟨key⟩ v acc), saved || bad, rest) := by
  rw [parseMembers, skipWs_pad w '"' _ hw (by decide)]
  simp only [parseStringBody_plain key _ hkey, skipWs_pad w1 ':' _ hw1 (by decide), hvalue,
    skipWs_pad w2 '}' _ hw2 (by decide)]
  simp

/-- One element that is followed by a comma. -/
theorem parseElements_comma (n depth : Nat) (w2 value rest : List Char) (v : JVal)
    (bad saved : Bool) (acc : List JVal) (hw2 : ∀ x ∈ w2, isWs x = true)
    (hvalue : parseValue n depth value = some (v, bad, w2 ++ ',' :: rest)) :
    parseElements (n + 1) depth value acc saved =
      parseElements n depth rest (acc ++ [v]) (saved || bad) := by
  rw [parseElements]
  simp only [hvalue, skipWs_pad w2 ',' _ hw2 (by decide)]
  simp

/-- The last element of an array. -/
theorem parseElements_last (n depth : Nat) (w2 value rest : List Char) (v : JVal)
    (bad saved : Bool) (acc : List JVal) (hw2 : ∀ x ∈ w2, isWs x = true)
    (hvalue : parseValue n depth value = some (v, bad, w2 ++ ']' :: rest)) :
    parseElements (n + 1) depth value acc saved =
      some (JVal.arr (acc ++ [v]), saved || bad, rest) := by
  rw [parseElements]
  simp only [hvalue, skipWs_pad w2 ']' _ hw2 (by decide)]
  simp

/-- One member that directly follows and is followed by a comma. -/
theorem parseMembers_comma0 (n depth : Nat) (w1 w2 key value rest : List Char) (v : JVal)
    (bad saved : Bool) (acc : List (String × JVal))
    (hw1 : ∀ x ∈ w1, isWs x = true) (hw2 : ∀ x ∈ w2, isWs x = true)
    (hkey : ∀ c ∈ key, plainStringByte c = true)
    (hvalue : parseValue n depth value = some (v, bad, w2 ++ ',' :: rest)) :
    parseMembers (n + 1) depth ('"' :: (key ++ '"' :: (w1 ++ ':' :: value))) acc saved =
      parseMembers n depth rest (setMember ⟨key⟩ v acc) (saved || bad) :=
  parseMembers_comma n depth [] w1 w2 key value rest v bad saved acc (by simp) hw1 hw2 hkey
    hvalue

/-- The only member of an object, directly following. -/
theorem parseMembers_last0 (n depth : Nat) (w1 w2 key value rest : List Char) (v : JVal)
    (bad saved : Bool) (acc : List (String × JVal))
    (hw1 : ∀ x ∈ w1, isWs x = true) (hw2 : ∀ x ∈ w2, isWs x = true)
    (hkey : ∀ c ∈ key, plainStringByte c = true)
    (hvalue : parseValue n depth value = some (v, bad, w2 ++ '}' :: rest)) :
    parseMembers (n + 1) depth ('"' :: (key ++ '"' :: (w1 ++ ':' :: value))) acc saved =
      some (JVal.obj (setMember ⟨key⟩ v acc), saved || bad, rest) :=
  parseMembers_last n depth [] w1 w2 key value rest v bad saved acc (by simp) hw1 hw2 hkey
    hvalue

/-- A string value that directly follows. -/
theorem parseValue_string0 (n depth : Nat) (s rest : List Char)
    (hs : ∀ c ∈ s, plainStringByte c = true) :
    parseValue (n + 1) depth ('"' :: (s ++ '"' :: rest)) = some (JVal.str ⟨s⟩, false, rest) :=
  parseValue_string n depth [] s rest (by simp) hs

/-- An object with at least one member that directly follows. -/
theorem parseValue_object0 (n depth : Nat) (w1 rest : List Char)
    (hw1 : ∀ x ∈ w1, isWs x = true) (hdepth : depth < maxNestingDepth) :
    parseValue (n + 1) depth ('{' :: (w1 ++ '"' :: rest)) =
      parseMembers n (depth + 1) ('"' :: rest) [] false :=
  parseValue_object n depth [] w1 rest (by simp) hw1 hdepth

theorem plain_type : ∀ c ∈ word "type", plainStringByte c = true := by decide
theorem plain_callback_id : ∀ c ∈ word "callback_id", plainStringByte c = true := by decide
theorem plain_shortcut : ∀ c ∈ word "shortcut", plainStringByte c = true := by decide
theorem plain_view_submission : ∀ c ∈ word "view_submission", plainStringByte c = true := by
  decide
theorem plain_view : ∀ c ∈ word "view", plainStringByte c = true := by decide
theorem plain_block_actions : ∀ c ∈ word "block_actions", plainStringByte c = true := by decide
theorem plain_actions : ∀ c ∈ word "actions", plainStringByte c = true := by decide
theorem plain_action_id : ∀ c ∈ word "action_id", plainStringByte c = true := by decide

theorem fuel_split (n k : Nat) (h : k ≤ n) : ∃ m, n = m + k := ⟨n - k, by omega⟩

/-- An object with one member whose value is a string. -/
theorem parseValue_single (n depth : Nat) (w0 w key s rest : List Char)
    (hw0 : ∀ x ∈ w0, isWs x = true) (hw : ∀ x ∈ w, isWs x = true)
    (hkey : ∀ c ∈ key, plainStringByte c = true) (hs : ∀ c ∈ s, plainStringByte c = true)
    (hdepth : depth < maxNestingDepth) :
    parseValue (n + 3) depth (w0 ++ '{' :: (w ++ '"' :: (key ++ '"' :: (w ++ ':' ::
        (w ++ '"' :: (s ++ '"' :: (w ++ '}' :: rest))))))) =
      some (JVal.obj [(⟨key⟩, JVal.str ⟨s⟩)], false, rest) := by
  rw [parseValue_object (n + 2) depth w0 w _ hw0 hw hdepth,
    parseMembers_last0 (n + 1) (depth + 1) w w key _ _ _ false false [] hw hw hkey
      (parseValue_string n (depth + 1) w s _ hw hs)]
  rfl

/-- An array of two objects with one member each, whose values are strings. -/
theorem parseValue_pair (n depth : Nat) (w key s t rest : List Char)
    (hw : ∀ x ∈ w, isWs x = true) (hkey : ∀ c ∈ key, plainStringByte c = true)
    (hs : ∀ c ∈ s, plainStringByte c = true) (ht : ∀ c ∈ t, plainStringByte c = true)
    (hdepth : depth + 1 < maxNestingDepth) :
    parseValue (n + 6) depth (w ++ '[' :: (w ++ '{' :: (w ++ '"' :: (key ++ '"' :: (w ++ ':' ::
        (w ++ '"' :: (s ++ '"' :: (w ++ '}' :: (w ++ ',' :: (w ++ '{' :: (w ++ '"' ::
        (key ++ '"' :: (w ++ ':' :: (w ++ '"' :: (t ++ '"' :: (w ++ '}' ::
        (w ++ ']' :: rest))))))))))))))))) =
      some (JVal.arr [JVal.obj [(⟨key⟩, JVal.str ⟨s⟩)], JVal.obj [(⟨key⟩, JVal.str ⟨t⟩)]],
        false, rest) := by
  have hnil : ∀ x ∈ ([] : List Char), isWs x = true := by simp
  have hfirst := fun tail => parseValue_single (n + 1) (depth + 1) [] w key s tail hnil hw
    hkey hs hdepth
  simp only [List.nil_append] at hfirst
  rw [parseValue_array (n + 5) depth w w _ hw hw (by omega),
    parseElements_comma (n + 4) (depth + 1) w _ _ _ false false [] hw (hfirst _),
    parseElements_last (n + 3) (depth + 1) w _ _ _ false _ _ hw
      (parseValue_single n (depth + 1) w w key t _ hw hw hkey ht hdepth)]
  rfl

/-- The text `shortcutText w s` decodes to the object it denotes. -/
theorem jsonUnmarshal_shortcutText (w s : List Char) (hw : ∀ x ∈ w, isWs x = true)
    (hs : ∀ c ∈ s, plainStringByte c = true) :
    jsonUnmarshal (shortcutText w s) =
      .ok (JVal.obj [("type", JVal.str "shortcut"), ("callback_id", JVal.str ⟨s⟩)]) := by
  unfold jsonUnmarshal
  have hlen : (shortcutText w s).length = (shortcutText w s).data.length := rfl
  obtain ⟨m, hm⟩ := fuel_split (2 * (shortcutText w s).data.length + 2) 4 (by
    simp only [shortcutText, padded, List.length_append, List.length_cons]
    omega)
  rw [hlen, hm]
  simp only [shortcutText, padded, quoted, List.append_assoc, List.cons_append,
    List.nil_append, List.singleton_append]
  rw [parseValue_object (m + 3) 0 w w _ hw hw (by decide), Nat.zero_add,
    parseMembers_comma0 (m + 2) 1 w w (word "type") _ _ _ false false [] hw hw plain_type
      (parseValue_string (m + 1) 1 w (word "shortcut") _ hw plain_shortcut),
    parseMembers_last (m + 1) 1 w w w (word "callback_id") _ _ _ false _ _ hw hw hw
      plain_callback_id (parseValue_string m 1 w s _ hw hs)]
  simp only [skipWs_all w hw, ne_eq, not_true_eq_false, if_false, Bool.or_self,
    Bool.false_eq_true]
  rfl

/-- The text `viewSubmissionText w t s` decodes to the object it denotes. -/
theorem jsonUnmarshal_viewSubmissionText (w t s : List Char) (hw : ∀ x ∈ w, isWs x = true)
    (ht : ∀ c ∈ t, plainStringByte c = true) (hs : ∀ c ∈ s, plainStringByte c = true) :
    jsonUnmarshal (viewSubmissionText w t s) =
      .ok (JVal.obj [("type", JVal.str "view_submission"), ("callback_id", JVal.str ⟨t⟩),
        ("view", JVal.obj [("callback_id", JVal.str ⟨s⟩)])]) := by
  unfold jsonUnmarshal
  have hlen : (viewSubmissionText w t s).length = (viewSubmissionText w t s).data.length := rfl
  obtain ⟨m, hm⟩ := fuel_split (2 * (viewSubmissionText w t s).data.length + 2) 7 (by
    simp only [viewSubmissionText, padded, List.length_append, List.length_cons]
    omega)
  rw [hlen, hm]
  simp only [viewSubmissionText, padded, quoted, List.append_assoc, List.cons_append,
    List.nil_append, List.singleton_append]
  rw [parseValue_object (m + 6) 0 w w _ hw hw (by decide), Nat.zero_add,
    parseMembers_comma0 (m + 5) 1 w w (word "type") _ _ _ false false [] hw hw plain_type
      (parseValue_string (m + 4) 1 w (word "view_submission") _ hw plain_view_submission),
    parseMembers_comma (m + 4) 1 w w w (word "callback_id") _ _ _ false _ _ hw hw hw
      plain_callback_id (parseValue_string (m + 3) 1 w t _ hw ht),
    parseMembers_last (m + 3) 1 w w w (word "view") _ _ _ false _ _ hw hw hw plain_view
      (parseValue_single m 1 w w (word "callback_id") s _ hw hw plain_callback_id hs
        (by decide))]
  simp only [skipWs_all w hw, ne_eq, not_true_eq_false, if_false, Bool.or_self,
    Bool.false_eq_true]
  rfl

/-- The text `blockActionsText w s t` decodes to the object it denotes. -/
theorem jsonUnmarshal_blockActionsText (w s t : List Char) (hw : ∀ x ∈ w, isWs x = true)
    (hs : ∀ c ∈ s, plainStringByte c = true) (ht : ∀ c ∈ t, plainStringByte c = true) :
    jsonUnmarshal (blockActionsText w s t) =
      .ok (JVal.obj [("type", JVal.str "block_actions"),
        ("actions", JVal.arr [JVal.obj [("action_id", JVal.str ⟨s⟩)],
          JVal.obj [("action_id", JVal.str ⟨t⟩)]])]) := by
  unfold jsonUnmarshal
  have hlen : (blockActionsText w s t).length = (blockActionsText w s t).data.length := rfl
  obtain ⟨m, hm⟩ := fuel_split (2 * (blockActionsText w s t).data.length + 2) 9 (by
    simp only [blockActionsText, padded, List.length_append, List.length_cons]
    omega)
  rw [hlen, hm]
  simp only [blockActionsText, padded, quoted, List.append_assoc, List.cons_append,
    List.nil_append, List.singleton_append]
  rw [parseValue_object (m + 8) 0 w w _ hw hw (by decide), Nat.zero_add,
    parseMembers_comma0 (m + 7) 1 w w (word "type") _ _ _ false false [] hw hw plain_type
      (parseValue_string (m + 6) 1 w (word "block_actions") _ hw plain_block_actions),
    parseMembers_last (m + 6) 1 w w w (word "actions") _ _ _ false _ _ hw hw hw plain_actions
      (parseValue_pair m 1 w (word "action_id") s t _ hw plain_action_id hs ht (by decide))]
  simp only [skipWs_all w hw, ne_eq, not_true_eq_false, if_false, Bool.or_self,
    Bool.false_eq_true]
  rfl

/-! ## The decoder `getCallbackIDFromPayload` -/

theorem get_of_type (v : JVal) : jsonpointerGet v "/type" =
    match pointerWalk v ["type"] with
    | some x => .ok x
    | none => .error ("Invalid JSON pointer: " ++ "/type") := rfl

theorem get_of_callback_id (v : JVal) : jsonpointerGet v "/callback_id" =
    match pointerWalk v ["callback_id"] with
    | some x => .ok x
    | none => .error ("Invalid JSON pointer: " ++ "/callback_id") := rfl

theorem get_of_view_callback_id (v : JVal) : jsonpointerGet v "/view/callback_id" =
    match pointerWalk v ["view", "callback_id"] with
    | some x => .ok x
    | none => .error ("Invalid JSON pointer: " ++ "/view/callback_id") := rfl

theorem get_of_action_id (v : JVal) : jsonpointerGet v "/actions/0/action_id" =
    match pointerWalk v ["actions", "0", "action_id"] with
    | some x => .ok x
    | none => .error ("Invalid JSON pointer: " ++ "/actions/0/action_id") := rfl

theorem atoi_zero : Atoi "0" = some 0 := by decide

set_option maxRecDepth 20000 in
/-- C3, as stated, fails. The payload
`{"type":"shortcut","callback_id":"x","n":1e400}` is a JSON object of type
"shortcut" whose `callback_id` is the string `x`, and the decoder returns the
empty key with an error: `json.Unmarshal` reports the number 1e400, which is
out of the range of `float64`, although the member `n` is none of the fields
the decoder reads. With `1e300` in its place the decoder returns `x`. -/
theorem out_of_range_number_fails_decoding :
    (∃ err, getCallbackIDFromPayload
        "\x7b\"type\":\"shortcut\",\"callback_id\":\"x\",\"n\":1e400\x7d" =
      Outcome.ok ("", some err)) ∧
    getCallbackIDFromPayload
        "\x7b\"type\":\"shortcut\",\"callback_id\":\"x\",\"n\":1e300\x7d" =
      Outcome.ok ("x", none) := by
  refine ⟨⟨"json: cannot unmarshal number into Go value of type float64", by decide⟩,
    by decide⟩

/-- A decoded object whose `type` is one of the three recognized strings and
whose branch-addressed field is a string `s` makes the decoder return `s`. -/
theorem getCallbackID_of_decoded (payloadJSON : String)
    (members : List (String × JVal)) (s : String)
    (hdecode : jsonUnmarshal payloadJSON = .ok (JVal.obj members))
    (hfield :
      (getMember "type" members = some (JVal.str "shortcut") ∧
        getMember "callback_id" members = some (JVal.str s)) ∨
      (getMember "type" members = some (JVal.str "view_submission") ∧
        ∃ view, getMember "view" members = some (JVal.obj view) ∧
          getMember "callback_id" view = some (JVal.str s)) ∨
      (getMember "type" members = some (JVal.str "block_actions") ∧
        ∃ first others,
          getMember "actions" members = some (JVal.arr (JVal.obj first :: others)) ∧
          getMember "action_id" first = some (JVal.str s))) :
    getCallbackIDFromPayload payloadJSON = Outcome.ok (s, none) := by
  unfold getCallbackIDFromPayload
  rw [hdecode]
  rcases hfield with ⟨ht, hc⟩ | ⟨ht, view, hv, hc⟩ | ⟨ht, first, others, ha, hc⟩
  · simp [get_of_type, get_of_callback_id, getDiscardingError, pointerWalk, pointerStep, ht,
      hc, assertString]
  · simp [get_of_type, get_of_view_callback_id, getDiscardingError, pointerWalk, pointerStep,
      ht, hv, hc, assertString]
  · simp [get_of_type, get_of_action_id, getDiscardingError, pointerWalk, pointerStep, ht, ha,
      hc, assertString, atoi_zero]

/-- C3, amended. For every payload on which `json.Unmarshal` reports no error
and which decodes to a JSON object whose `type` is "shortcut",
"view_submission" or "block_actions" and whose branch-addressed field
(top-level `callback_id`, `view.callback_id`, `actions[0].action_id`) is a
string `s`, the decoder returns `s` and no error, whatever the other members
of the object, of `view`, and the later elements of `actions` are. In
particular, for every run `w` of white space and all plain strings `s` and
`t`, the payload texts `{"type":"shortcut","callback_id":"s"}`,
`{"type":"view_submission","callback_id":"t","view":{"callback_id":"s"}}` and
`{"type":"block_actions","actions":[{"action_id":"s"},{"action_id":"t"}]}`,
written with `w` around every token, all yield `s`: a view_submission that
also has a top-level `callback_id` yields `view.callback_id`, and a
block_actions with two actions yields the `action_id` of `actions[0]`. -/
theorem getCallbackID_reads_branch_field :
    (∀ (payloadJSON : String) (members : List (String × JVal)) (s : String),
      jsonUnmarshal payloadJSON = .ok (JVal.obj members) →
      ((getMember "type" members = some (JVal.str "shortcut") ∧
          getMember "callback_id" members = some (JVal.str s)) ∨
        (getMember "type" members = some (JVal.str "view_submission") ∧
          ∃ view, getMember "view" members = some (JVal.obj view) ∧
            getMember "callback_id" view = some (JVal.str s)) ∨
        (getMember "type" members = some (JVal.str "block_actions") ∧
          ∃ first others,
            getMember "actions" members = some (JVal.arr (JVal.obj first :: others)) ∧
            getMember "action_id" first = some (JVal.str s))) →
      getCallbackIDFromPayload payloadJSON = Outcome.ok (s, none)) ∧
    (∀ w s : List Char, (∀ x ∈ w, isWs x = true) → (∀ c ∈ s, plainStringByte c = true) →
      getCallbackIDFromPayload (shortcutText w s) = Outcome.ok (⟨s⟩, none)) ∧
    (∀ w t s : List Char, (∀ x ∈ w, isWs x = true) → (∀ c ∈ t, plainStringByte c = true) →
      (∀ c ∈ s, plainStringByte c = true) →
      getCallbackIDFromPayload (viewSubmissionText w t s) = Outcome.ok (⟨s⟩, none)) ∧
    (∀ w s t : List Char, (∀ x ∈ w, isWs x = true) → (∀ c ∈ s, plainStringByte c = true) →
      (∀ c ∈ t, plainStringByte c = true) →
      getCallbackIDFromPayload (blockActionsText w s t) = Outcome.ok (⟨s⟩, none)) := by
  refine ⟨getCallbackID_of_decoded, ?_, ?_, ?_⟩
  · intro w s hw hs
    exact getCallbackID_of_decoded _ _ _ (jsonUnmarshal_shortcutText w s hw hs)
      (Or.inl ⟨rfl, rfl⟩)
  · intro w t s hw ht hs
    exact getCallbackID_of_decoded _ _ _ (jsonUnmarshal_viewSubmissionText w t s hw ht hs)
      (Or.inr (Or.inl ⟨rfl, _, rfl, rfl⟩))
  · intro w s t hw hs ht
    exact getCallbackID_of_decoded _ _ _ (jsonUnmarshal_blockActionsText w s t hw hs ht)
      (Or.inr (Or.inr ⟨rfl, _, _, rfl, rfl⟩))

theorem getCallbackID_reads_branch_field_witness :
    getCallbackIDFromPayload
        " \x7b \"trigger_id\" : \"1.2\" ,\n\t\"type\":\"shortcut\", \"n\": [1, -2.5e3, true, null],\r\n \"callback_id\" : \"approve_req__42\" \x7d\n" =
      Outcome.ok ("approve_req__42", none) ∧
    getCallbackIDFromPayload
        "\x7b\"type\":\"view_submission\",\"callback_id\":\"top__1\",\"view\":\x7b\"id\":\"V\\u0031\\n\",\"callback_id\":\"form_submit__abc123\",\"id\":false\x7d\x7d" =
      Outcome.ok ("form_submit__abc123", none) ∧
    getCallbackIDFromPayload
        "\x7b\"type\":\"block_actions\",\"actions\":[\x7b\"action_id\":\"deny__7\"\x7d,\x7b\"action_id\":\"allow__8\"\x7d,17]\x7d" =
      Outcome.ok ("deny__7", none) ∧
    getCallbackIDFromPayload (shortcutText " \n".data "approve_req__42".data) =
      Outcome.ok ("approve_req__42", none) :=
  ⟨getCallbackID_reads_branch_field.1 _
      [("trigger_id", JVal.str "1.2"), ("type", JVal.str "shortcut"),
       ("n", JVal.arr [JVal.num "1", JVal.num "-2.5e3", JVal.bool true, JVal.null]),
       ("callback_id", JVal.str "approve_req__42")] _ rfl (Or.inl ⟨rfl, rfl⟩),
   getCallbackID_reads_branch_field.1 _
      [("type", JVal.str "view_submission"), ("callback_id", JVal.str "top__1"),
       ("view", JVal.obj [("id", JVal.bool false), ("callback_id", JVal.str "form_submit__abc123")])]
      _ rfl (Or.inr (Or.inl ⟨rfl, _, rfl, rfl⟩)),
   getCallbackID_reads_branch_field.1 _
      [("type", JVal.str "block_actions"),
       ("actions", JVal.arr [JVal.obj [("action_id", JVal.str "deny__7")],
          JVal.obj [("action_id", JVal.str "allow__8")], JVal.num "17"])]
      _ rfl (Or.inr (Or.inr ⟨rfl, _, _, rfl, rfl⟩)),
   getCallbackID_reads_branch_field.2.1 _ _ (by decide) (by decide)⟩

/-- A payload that does not decode, or decodes to a value in which the pointer
`/type` designates nothing, makes the decoder return the empty key with an
error. -/
theorem getCallbackID_error_when_undecodable (payloadJSON : String)
    (h : (∃ err, jsonUnmarshal payloadJSON = .error err) ∨
      (∃ payload, jsonUnmarshal payloadJSON = .ok payload ∧ pointerStep payload "type" = none)) :
    ∃ err, getCallbackIDFromPayload payloadJSON = Outcome.ok ("", some err) := by
  unfold getCallbackIDFromPayload
  rcases h with ⟨err, he⟩ | ⟨payload, hp, hstep⟩
  · exact ⟨err, by rw [he]⟩
  · rw [hp]
    simp [get_of_type, pointerWalk, hstep]

/-- A `type` that is present but not a string makes the assertion of line 74
panic. -/
theorem getCallbackID_panics_when_type_not_string (payloadJSON : String)
    (members : List (String × JVal)) (t : JVal)
    (hdecode : jsonUnmarshal payloadJSON = .ok (JVal.obj members))
    (htype : getMember "type" members = some t) (hnot : ∀ s, t ≠ JVal.str s) :
    ∃ msg, getCallbackIDFromPayload payloadJSON = Outcome.panic msg := by
  unfold getCallbackIDFromPayload
  rw [hdecode]
  cases t with
  | str s => exact absurd rfl (hnot s)
  | null => simp [get_of_type, pointerWalk, pointerStep, htype, assertString]
  | bool b => simp [get_of_type, pointerWalk, pointerStep, htype, assertString]
  | num n => simp [get_of_type, pointerWalk, pointerStep, htype, assertString]
  | arr xs => simp [get_of_type, pointerWalk, pointerStep, htype, assertString]
  | obj ms => simp [get_of_type, pointerWalk, pointerStep, htype, assertString]

/-- A `type` string outside the three recognized ones leaves `iCallbackID`
nil, and the assertion of line 86 panics. -/
theorem getCallbackID_panics_on_other_type (payloadJSON : String)
    (members : List (String × JVal)) (t : String)
    (hdecode : jsonUnmarshal payloadJSON = .ok (JVal.obj members))
    (htype : getMember "type" members = some (JVal.str t))
    (h1 : t ≠ "shortcut") (h2 : t ≠ "view_submission") (h3 : t ≠ "block_actions") :
    ∃ msg, getCallbackIDFromPayload payloadJSON = Outcome.panic msg := by
  unfold getCallbackIDFromPayload
  rw [hdecode]
  simp [get_of_type, pointerWalk, pointerStep, htype, assertString, h1, h2, h3]

/-- A panic of the decoder is a panic of the director: nothing is forwarded. -/
theorem director_panics_with_decoder (backends : List BackendConfig) (request : Request)
    (buffer msg : String) (hbody : request.Body = Body.bytes buffer)
    (hpanic : getCallbackIDFromPayload ((ParseQuery buffer).1.Get "payload") =
      Outcome.panic msg) :
    director backends request = Outcome.panic msg := by
  unfold director
  rw [hbody]
  simp only [hpanic]

/-- C4, evaluated. The payload `{"type":"message"}` decodes to an object whose
`type` is an unrecognized string; the decoder panics at the assertion of line
86 instead of returning the empty key, and the director, called on a request
that carries this payload, panics with it instead of forwarding the request. -/
theorem message_payload_panics :
    (ParseQuery "payload=%7B%22type%22%3A%22message%22%7D").1.Get "payload" =
      "\x7b\"type\":\"message\"\x7d" ∧
    getCallbackIDFromPayload "\x7b\"type\":\"message\"\x7d" =
      Outcome.panic "interface conversion: not string" ∧
    director sampleBackends (inbound "payload=%7B%22type%22%3A%22message%22%7D") =
      Outcome.panic "interface conversion: not string" := by
  refine ⟨by decide, by decide, by decide⟩

/-- C5, evaluated. With a recognized `type` and a branch field that is absent
or not a string (no `callback_id`, a numeric `callback_id`, a `view` that is a
string, a `view` without `callback_id`, an empty `actions` array), the decoder
panics at the assertion of line 86 instead of returning the empty key, and the
director panics with it. -/
theorem missing_branch_field_panics :
    getCallbackIDFromPayload "\x7b\"type\":\"shortcut\"\x7d" =
      Outcome.panic "interface conversion: not string" ∧
    getCallbackIDFromPayload "\x7b\"type\":\"shortcut\",\"callback_id\":5\x7d" =
      Outcome.panic "interface conversion: not string" ∧
    getCallbackIDFromPayload "\x7b\"type\":\"view_submission\",\"view\":\"x\"\x7d" =
      Outcome.panic "interface conversion: not string" ∧
    getCallbackIDFromPayload "\x7b\"type\":\"view_submission\",\"view\":\x7b\x7d\x7d" =
      Outcome.panic "interface conversion: not string" ∧
    getCallbackIDFromPayload "\x7b\"type\":\"block_actions\",\"actions\":[]\x7d" =
      Outcome.panic "interface conversion: not string" ∧
    director sampleBackends (inbound "payload=%7B%22type%22%3A%22shortcut%22%7D") =
      Outcome.panic "interface conversion: not string" := by
  refine ⟨by decide, by decide, by decide, by decide, by decide, by decide⟩

/-- C6, evaluated. The empty payload, text that is not JSON and an object
without `type` make the decoder return the empty key with an error, and the
director forwards with the inbound host. A `type` that is a number or null
makes the decoder panic at the assertion of line 74 instead of returning an
error, and the director panics with it. -/
theorem non_string_type_panics :
    getCallbackIDFromPayload "" = Outcome.ok ("", some "invalid JSON input") ∧
    getCallbackIDFromPayload "\x7b\"type\"" = Outcome.ok ("", some "invalid JSON input") ∧
    getCallbackIDFromPayload "\x7b\"callback_id\":\"approve_req__42\"\x7d" =
      Outcome.ok ("", some "Invalid JSON pointer: /type") ∧
    getCallbackIDFromPayload "\x7b\"type\":1\x7d" =
      Outcome.panic "interface conversion: not string" ∧
    getCallbackIDFromPayload "\x7b\"type\":null\x7d" =
      Outcome.panic "interface conversion: not string" ∧
    (ParseQuery "payload=%7B%22type%22%3A1%7D").1.Get "payload" = "\x7b\"type\":1\x7d" ∧
    director sampleBackends (inbound "payload=%7B%22type%22%3A1%7D") =
      Outcome.panic "interface conversion: not string" := by
  refine ⟨by decide, by decide, by decide, by decide, by decide, by decide, by decide⟩

/-! ## Rendering a plain URL and parsing it back -/

theorem cut_cons_eq (sep : Char) (cs : List Char) : cut sep (sep :: cs) = some ([], cs) := by
  simp [cut]

theorem cut_cons_ne (sep c : Char) (cs : List Char) (h : c ≠ sep) :
    cut sep (c :: cs) = (cut sep cs).map (fun p => (c :: p.1, p.2)) := by
  simp [cut, h]

theorem cut_none (sep : Char) (l : List Char) (h : sep ∉ l) : cut sep l = none := by
  induction l with
  | nil => rfl
  | cons c cs ih =>
    simp only [List.mem_cons, not_or] at h
    rw [cut_cons_ne sep c cs (fun hc => h.1 hc.symm), ih h.2]
    rfl

theorem cut_append (sep : Char) (a b : List Char) (h : sep ∉ a) :
    cut sep (a ++ sep :: b) = some (a, b) := by
  induction a with
  | nil => exact cut_cons_eq sep b
  | cons c cs ih =>
    simp only [List.mem_cons, not_or] at h
    show cut sep (c :: (cs ++ sep :: b)) = some (c :: cs, b)
    rw [cut_cons_ne sep c _ (fun hc => h.1 hc.symm), ih h.2]
    rfl

theorem cut_some (sep : Char) (l a b : List Char) (h : cut sep l = some (a, b)) :
    l = a ++ sep :: b ∧ sep ∉ a := by
  induction l generalizing a with
  | nil => simp [cut] at h
  | cons c cs ih =>
    by_cases hc : c = sep
    · subst hc
      rw [cut_cons_eq] at h
      simp only [Option.some.injEq, Prod.mk.injEq] at h
      obtain ⟨rfl, rfl⟩ := h
      simp
    · rw [cut_cons_ne sep c cs hc] at h
      cases hcut : cut sep cs with
      | none => simp [hcut] at h
      | some p =>
        obtain ⟨a1, b1⟩ := p
        simp only [hcut, Option.map_some', Option.some.injEq, Prod.mk.injEq] at h
        obtain ⟨rfl, rfl⟩ := h
        obtain ⟨h1, h2⟩ := ih a1 hcut
        refine ⟨by rw [h1]; rfl, ?_⟩
        simp only [List.mem_cons, not_or]
        exact ⟨fun hs => hc hs.symm, h2⟩

theorem cutLast_cons_some (sep c : Char) (cs : List Char) (p : List Char × List Char)
    (h : cutLast sep cs = some p) : cutLast sep (c :: cs) = some (c :: p.1, p.2) := by
  simp [cutLast, h]

theorem cutLast_cons_none (sep c : Char) (cs : List Char) (h : cutLast sep cs = none) :
    cutLast sep (c :: cs) = if c = sep then some ([], cs) else none := by
  simp [cutLast, h]

theorem cutLast_none (sep : Char) (l : List Char) (h : sep ∉ l) : cutLast sep l = none := by
  induction l with
  | nil => rfl
  | cons c cs ih =>
    simp only [List.mem_cons, not_or] at h
    rw [cutLast_cons_none sep c cs (ih h.2), if_neg (fun hc => h.1 hc.symm)]

theorem cutLast_append (sep : Char) (a b : List Char) (h : sep ∉ b) :
    cutLast sep (a ++ sep :: b) = some (a, b) := by
  induction a with
  | nil =>
    show cutLast sep (sep :: b) = some ([], b)
    rw [cutLast_cons_none sep sep b (cutLast_none sep b h), if_pos rfl]
  | cons c cs ih =>
    show cutLast sep (c :: (cs ++ sep :: b)) = some (c :: cs, b)
    rw [cutLast_cons_some sep c _ _ ih]

theorem splitAtSlash_append (a b : List Char) (ha : '/' ∉ a) (hb : b.head? = some '/') :
    splitAtSlash (a ++ b) = (a, b) := by
  induction a with
  | nil =>
    cases b with
    | nil => simp at hb
    | cons c cs =>
      simp only [List.head?_cons, Option.some.injEq] at hb
      subst hb
      simp [splitAtSlash]
  | cons c cs ih =>
    simp only [List.mem_cons, not_or] at ha
    have hc : c ≠ '/' := fun hc => ha.1 hc.symm
    show splitAtSlash (c :: (cs ++ b)) = (c :: cs, b)
    simp only [splitAtSlash, if_neg hc, ih ha.2, List.cons]

theorem unescape_cons (mode : Encoding) (c : Char) (rest : List Char) (hc : c ≠ '%') :
    unescape mode (c :: rest) =
      if c = '+' ∧ mode = Encoding.encodeQueryComponent then
        (unescape mode rest).map (fun r => ' ' :: r)
      else if (mode = Encoding.encodeHost ∨ mode = Encoding.encodeZone) ∧ c.toNat < 0x80 ∧
          shouldEscape c Encoding.encodeHost then none
      else (unescape mode rest).map (fun r => c :: r) := by
  rw [unescape]
  · intro h1 h2 r h _
    exact hc h
  · intro h
    exact hc h

theorem unescape_id (mode : Encoding) (l : List Char)
    (h : ∀ c ∈ l, c ≠ '%' ∧ ¬ (c = '+' ∧ mode = Encoding.encodeQueryComponent) ∧
      ¬ ((mode = Encoding.encodeHost ∨ mode = Encoding.encodeZone) ∧ c.toNat < 0x80 ∧
        shouldEscape c Encoding.encodeHost)) :
    unescape mode l = some l := by
  induction l with
  | nil => rfl
  | cons c cs ih =>
    obtain ⟨h1, h2, h3⟩ := h c (List.mem_cons_self c cs)
    rw [unescape_cons mode c cs h1, if_neg h2, if_neg h3,
      ih (fun d hd => h d (List.mem_cons_of_mem c hd))]
    rfl

theorem escape_id (mode : Encoding) (l : List Char)
    (h : ∀ c ∈ l, shouldEscape c mode = false) : escape mode l = l := by
  induction l with
  | nil => rfl
  | cons c cs ih =>
    simp only [escape, h c (List.mem_cons_self c cs), Bool.false_eq_true, if_false,
      ih (fun d hd => h d (List.mem_cons_of_mem c hd))]

set_option maxRecDepth 8000 in
theorem hostNameBytes_facts : ∀ c ∈ hostNameBytes,
    shouldEscape c Encoding.encodeHost = false ∧ c ≠ '%' ∧ c ≠ '/' ∧ c ≠ '?' ∧ c ≠ '#' ∧
      c ≠ '@' ∧ c ≠ ':' ∧ c ≠ '[' ∧ ¬ (c.toNat < 0x20 ∨ c.toNat = 0x7f) := by
  decide

set_option maxRecDepth 8000 in
theorem digitBytes_facts : ∀ c ∈ digitBytes,
    shouldEscape c Encoding.encodeHost = false ∧ c ≠ '%' ∧ c ≠ '/' ∧ c ≠ '?' ∧ c ≠ '#' ∧
      c ≠ '@' ∧ c ≠ ':' ∧ c ≠ '[' ∧ ¬ (c.toNat < 0x20 ∨ c.toNat = 0x7f) ∧
      ('0' ≤ c ∧ c ≤ '9') := by
  decide

set_option maxRecDepth 8000 in
theorem pathBytes_facts : ∀ c ∈ pathBytes,
    shouldEscape c Encoding.encodePath = false ∧ c ≠ '%' ∧ c ≠ '?' ∧ c ≠ '#' ∧
      ¬ (c.toNat < 0x20 ∨ c.toNat = 0x7f) := by
  decide

theorem noCTL_of_forall (l : List Char) (h : ∀ c ∈ l, ¬ (c.toNat < 0x20 ∨ c.toNat = 0x7f)) :
    stringContainsCTLByte l = false := by
  simp only [stringContainsCTLByte, List.any_eq_false, decide_eq_true_eq]
  exact h

theorem getScheme_http (raw rest : List Char) :
    getScheme raw [] ('h' :: 't' :: 't' :: 'p' :: ':' :: rest) =
      .ok (['h', 't', 't', 'p'], rest) := by
  simp [getScheme]

theorem getLast?_mem (l : List Char) (c : Char) (h : l.getLast? = some c) : c ∈ l := by
  induction l with
  | nil => simp at h
  | cons x xs ih =>
    cases xs with
    | nil =>
      simp only [List.getLast?_singleton, Option.some.injEq] at h
      simp [h]
    | cons y ys =>
      rw [List.getLast?_cons_cons] at h
      exact List.mem_cons_of_mem x (ih h)

theorem getLast?_append_cons (a : List Char) (x : Char) (b : List Char) :
    (a ++ x :: b).getLast? = (x :: b).getLast? := by
  induction a with
  | nil => rfl
  | cons c cs ih =>
    cases hcs : cs ++ x :: b with
    | nil => simp at hcs
    | cons y ys =>
      show (c :: (cs ++ x :: b)).getLast? = _
      rw [hcs, List.getLast?_cons_cons, ← hcs, ih]

/-- The query of a rendered plain URL is split off at the `?` that the
rendering wrote. -/
theorem splitQuery_plain (pre q : List Char) (hpre : '?' ∉ pre) :
    splitQuery (pre ++ (if q = [] then [] else '?' :: q)) = (pre, q, false) := by
  by_cases hq : q = []
  · subst hq
    simp only [if_true, List.append_nil, splitQuery]
    have hcount : pre.count '?' = 0 := List.count_eq_zero.mpr hpre
    rw [if_neg (by rw [hcount]; simp), cut_none '?' pre hpre]
  · simp only [if_neg hq, splitQuery]
    have hcond : ¬ ((pre ++ '?' :: q).getLast? = some '?' ∧ (pre ++ '?' :: q).count '?' = 1) := by
      rintro ⟨hlast, hcount⟩
      rw [List.count_append, List.count_cons_self, List.count_eq_zero.mpr hpre] at hcount
      have hq0 : q.count '?' = 0 := by omega
      have hnot : '?' ∉ q := List.count_eq_zero.mp hq0
      rw [getLast?_append_cons] at hlast
      cases q with
      | nil => exact hq rfl
      | cons y ys =>
        rw [List.getLast?_cons_cons] at hlast
        exact hnot (getLast?_mem _ _ hlast)
    rw [if_neg hcond, cut_append '?' pre q hpre]

/-- Facts about the bytes of a plain host. -/
theorem plainHost_bytes (host : String) (h : plainHost host = true) :
    ∀ c ∈ host.data, shouldEscape c Encoding.encodeHost = false ∧ c ≠ '%' ∧ c ≠ '/' ∧
      c ≠ '?' ∧ c ≠ '#' ∧ c ≠ '@' ∧ c ≠ '[' ∧ ¬ (c.toNat < 0x20 ∨ c.toNat = 0x7f) := by
  unfold plainHost at h
  cases hcut : cut ':' host.data with
  | none =>
    rw [hcut] at h
    simp only [List.all_eq_true, decide_eq_true_eq] at h
    intro c hc
    have := hostNameBytes_facts c (h c hc)
    exact ⟨this.1, this.2.1, this.2.2.1, this.2.2.2.1, this.2.2.2.2.1, this.2.2.2.2.2.1,
      this.2.2.2.2.2.2.2.1, this.2.2.2.2.2.2.2.2⟩
  | some p =>
    obtain ⟨name, digits⟩ := p
    rw [hcut] at h
    simp only [Bool.decide_and, Bool.and_eq_true, List.all_eq_true, decide_eq_true_eq] at h
    obtain ⟨hname, _, hdigits⟩ := h
    obtain ⟨hsplit, _⟩ := cut_some ':' _ _ _ hcut
    intro c hc
    rw [hsplit] at hc
    simp only [List.mem_append, List.mem_cons] at hc
    rcases hc with hc | rfl | hc
    · have := hostNameBytes_facts c (hname c hc)
      exact ⟨this.1, this.2.1, this.2.2.1, this.2.2.2.1, this.2.2.2.2.1, this.2.2.2.2.2.1,
        this.2.2.2.2.2.2.2.1, this.2.2.2.2.2.2.2.2⟩
    · decide
    · have := digitBytes_facts c (hdigits c hc)
      exact ⟨this.1, this.2.1, this.2.2.1, this.2.2.2.1, this.2.2.2.2.1, this.2.2.2.2.2.1,
        this.2.2.2.2.2.2.2.1, this.2.2.2.2.2.2.2.2.1⟩

theorem validOptionalPort_digits (digits : List Char) (h : ∀ c ∈ digits, c ∈ digitBytes) :
    validOptionalPort (':' :: digits) = true := by
  simp only [validOptionalPort, Bool.decide_and, Bool.and_eq_true, decide_eq_true_eq,
    List.all_eq_true, true_and]
  intro c hc
  exact (digitBytes_facts c (h c hc)).2.2.2.2.2.2.2.2.2

/-- A plain host passes `parseHost` unchanged. -/
theorem parseHost_plain (host : String) (h : plainHost host = true) :
    parseHost host.data = .ok host.data := by
  have hbytes := plainHost_bytes host h
  have hplain : unescape Encoding.encodeHost host.data = some host.data := by
    apply unescape_id
    intro c hc
    have := hbytes c hc
    refine ⟨this.2.1, by simp, ?_⟩
    rintro ⟨_, _, hesc⟩
    rw [this.1] at hesc
    exact Bool.false_ne_true hesc
  have hhead : host.data.head? ≠ some '[' := by
    intro hr
    cases hd : host.data with
    | nil => rw [hd] at hr; simp at hr
    | cons c cs =>
      rw [hd] at hr
      simp only [List.head?_cons, Option.some.injEq] at hr
      have := hbytes c (by rw [hd]; exact List.mem_cons_self _ _)
      exact this.2.2.2.2.2.2.1 hr
  simp only [parseHost, hplain, if_neg hhead]
  unfold plainHost at h
  cases hcut : cut ':' host.data with
  | none =>
    rw [hcut] at h
    simp only [List.all_eq_true, decide_eq_true_eq] at h
    have hno : ':' ∉ host.data := fun hc => (hostNameBytes_facts ':' (h ':' hc)).2.2.2.2.2.2.1 rfl
    rw [cutLast_none ':' _ hno]
  | some p =>
    obtain ⟨name, digits⟩ := p
    rw [hcut] at h
    simp only [Bool.decide_and, Bool.and_eq_true, List.all_eq_true, decide_eq_true_eq] at h
    obtain ⟨_, _, hdigits⟩ := h
    obtain ⟨hsplit, _⟩ := cut_some ':' _ _ _ hcut
    have hno : ':' ∉ digits := fun hc => (digitBytes_facts ':' (hdigits ':' hc)).2.2.2.2.2.2.1 rfl
    rw [hsplit, cutLast_append ':' name digits hno]
    simp only [validOptionalPort_digits digits hdigits, not_true_eq_false, if_false]

/-- A plain host does not end in a colon, so `removeEmptyPort` keeps it. -/
theorem removeEmptyPort_plain (host : String) (h : plainHost host = true) :
    removeEmptyPort host.data = host.data := by
  unfold removeEmptyPort
  have hlast : host.data.getLast? ≠ some ':' := by
    intro hl
    unfold plainHost at h
    cases hcut : cut ':' host.data with
    | none =>
      rw [hcut] at h
      simp only [List.all_eq_true, decide_eq_true_eq] at h
      exact (hostNameBytes_facts ':' (h ':' (getLast?_mem _ _ hl))).2.2.2.2.2.2.1 rfl
    | some p =>
      obtain ⟨name, digits⟩ := p
      rw [hcut] at h
      simp only [Bool.decide_and, Bool.and_eq_true, List.all_eq_true, decide_eq_true_eq] at h
      obtain ⟨_, hne, hdigits⟩ := h
      obtain ⟨hsplit, _⟩ := cut_some ':' _ _ _ hcut
      rw [hsplit, getLast?_append_cons] at hl
      cases digits with
      | nil => exact hne rfl
      | cons d ds =>
        rw [List.getLast?_cons_cons] at hl
        exact (digitBytes_facts ':' (hdigits ':' (getLast?_mem _ _ hl))).2.2.2.2.2.2.1 rfl
  rw [if_neg (fun hc => hlast hc.2)]

theorem plainPath_bytes (path : String) (h : plainPath path = true) :
    path.data.head? = some '/' ∧ ∀ c ∈ path.data, shouldEscape c Encoding.encodePath = false ∧
      c ≠ '%' ∧ c ≠ '?' ∧ c ≠ '#' ∧ ¬ (c.toNat < 0x20 ∨ c.toNat = 0x7f) := by
  simp only [plainPath, Bool.decide_and, Bool.and_eq_true, decide_eq_true_eq,
    List.all_eq_true] at h
  exact ⟨h.1, fun c hc => pathBytes_facts c (h.2 c hc)⟩

theorem plainQuery_bytes (query : String) (h : plainQuery query = true) :
    ∀ c ∈ query.data, c ≠ '#' ∧ ¬ (c.toNat < 0x20 ∨ c.toNat = 0x7f) := by
  simp only [plainQuery, Bool.decide_and, Bool.and_eq_true, decide_eq_true_eq,
    List.all_eq_true] at h
  intro c hc
  obtain ⟨h1, h2, h3⟩ := h c hc
  refine ⟨h3, ?_⟩
  omega

/-- The authority of a rendered plain URL is the host, and what remains is the
path. -/
theorem locateAuthority_plain (host path : String) (url : URL)
    (hh : plainHost host = true) (hp : plainPath path = true) :
    locateAuthority ['h', 't', 't', 'p'] false url ('/' :: '/' :: (host.data ++ path.data)) =
      .ok ({ url with User := none, Host := host }, path.data) := by
  have hhb := plainHost_bytes host hh
  have hpb := plainPath_bytes path hp
  have hslash : '/' ∉ host.data := fun hc => (hhb '/' hc).2.2.1 rfl
  have hat : '@' ∉ host.data := fun hc => (hhb '@' hc).2.2.2.2.2.1 rfl
  simp only [locateAuthority, splitAtSlash_append host.data path.data hslash hpb.1,
    parseAuthority, cutLast_none '@' _ hat, parseHost_plain host hh]
  simp [Except.map]

/-- A plain path is its own decoding and its own default encoding. -/
theorem setPath_plain (path : String) (url : URL) (hp : plainPath path = true) :
    setPath url path.data = .ok { url with Path := path, RawPath := "" } := by
  have hpb := plainPath_bytes path hp
  have hun : unescape Encoding.encodePath path.data = some path.data := by
    apply unescape_id
    intro c hc
    exact ⟨(hpb.2 c hc).2.1, by simp, by simp⟩
  have hesc : escape Encoding.encodePath path.data = path.data :=
    escape_id _ _ (fun c hc => (hpb.2 c hc).1)
  simp only [setPath, hun, hesc, if_true]

/-- The text `http://host/path?query` of a plain URL parses back into its
parts. -/
theorem parse_plain (host path query : String)
    (hh : plainHost host = true) (hp : plainPath path = true) (hq : plainQuery query = true) :
    parse ('h' :: 't' :: 't' :: 'p' :: ':' :: (('/' :: '/' :: (host.data ++ path.data)) ++
        (if query.data = [] then [] else '?' :: query.data))) false =
      .ok { Scheme := "http", Host := host, Path := path, RawQuery := query } := by
  have hhb := plainHost_bytes host hh
  have hpb := plainPath_bytes path hp
  have hqb := plainQuery_bytes query hq
  have hctl : stringContainsCTLByte ('h' :: 't' :: 't' :: 'p' :: ':' ::
      (('/' :: '/' :: (host.data ++ path.data)) ++
        (if query.data = [] then [] else '?' :: query.data))) = false := by
    apply noCTL_of_forall
    intro c hc
    simp only [List.mem_cons, List.mem_append] at hc
    rcases hc with rfl | rfl | rfl | rfl | rfl | (rfl | rfl | hc | hc) | hc
    · decide
    · decide
    · decide
    · decide
    · decide
    · decide
    · decide
    · exact (hhb c hc).2.2.2.2.2.2.2
    · exact (hpb.2 c hc).2.2.2.2
    · split at hc
      · simp at hc
      · simp only [List.mem_cons] at hc
        rcases hc with rfl | hc
        · decide
        · exact (hqb c hc).2
  have hpre : '?' ∉ '/' :: '/' :: (host.data ++ path.data) := by
    simp only [List.mem_cons, List.mem_append, not_or]
    exact ⟨by decide, by decide, fun hc => (hhb '?' hc).2.2.2.1 rfl,
      fun hc => (hpb.2 '?' hc).2.2.1 rfl⟩
  unfold parse
  rw [hctl]
  simp only [Bool.false_eq_true, if_false, List.cons_ne_nil, false_and, getScheme_http,
    splitQuery_plain _ query.data hpre]
  rw [if_neg (by simp), if_neg (by simp), if_neg (by simp), if_neg (by simp)]
  have hlow : List.map toLowerASCII ['h', 't', 't', 'p'] = ['h', 't', 't', 'p'] := by decide
  simp only [hlow, locateAuthority_plain host path _ hh hp, setPath_plain path _ hp]

theorem string_eq_empty_iff (s : String) : s = "" ↔ s.data = [] := by
  constructor
  · intro h; rw [h]
  · intro h; exact String.ext h

/-- What `URL.String` writes for a plain URL with the scheme "http". -/
theorem render_plain (u : URL) (hs : u.Scheme = "http") (hu : plainURL u = true) :
    u.render = 'h' :: 't' :: 't' :: 'p' :: ':' :: (('/' :: '/' :: (u.Host.data ++ u.Path.data)) ++
      (if u.RawQuery.data = [] then [] else '?' :: u.RawQuery.data)) := by
  simp only [plainURL, Bool.decide_and, Bool.and_eq_true, decide_eq_true_eq] at hu
  obtain ⟨hop, huser, hraw, homit, hforce, hfrag, hh, hp, _⟩ := hu
  have hhb := plainHost_bytes u.Host hh
  have hpb := plainPath_bytes u.Path hp
  have hpne : u.Path ≠ "" := by
    intro h
    rw [h] at hpb
    simp at hpb
  have hpstar : u.Path ≠ "*" := by
    intro h
    rw [h] at hpb
    have := hpb.1
    simp at this
  have hesch : escape Encoding.encodeHost u.Host.data = u.Host.data :=
    escape_id _ _ (fun c hc => (hhb c hc).1)
  have hescp : escape Encoding.encodePath u.Path.data = u.Path.data :=
    escape_id _ _ (fun c hc => (hpb.2 c hc).1)
  have hhost : (if u.Host ≠ "" then escape Encoding.encodeHost u.Host.data else []) =
      u.Host.data := by
    by_cases h : u.Host = ""
    · rw [if_neg (not_not.mpr h), h]
    · rw [if_pos h, hesch]
  have hpath : u.EscapedPath = u.Path.data := by
    simp only [URL.EscapedPath, hraw, ne_eq, not_true_eq_false, false_and, if_false,
      if_neg hpstar, hescp]
  have hquery : (if u.ForceQuery = true ∨ u.RawQuery ≠ "" then '?' :: u.RawQuery.data else []) =
      (if u.RawQuery.data = [] then [] else '?' :: u.RawQuery.data) := by
    by_cases h : u.RawQuery = ""
    · have hd := (string_eq_empty_iff _).mp h
      simp [hforce, h, hd]
    · have hd : u.RawQuery.data ≠ [] := fun hd => h ((string_eq_empty_iff _).mpr hd)
      simp [h, hd]
  unfold URL.render
  simp only [hpath, hquery, hhost]
  simp [hs, hop, huser, homit, hfrag, hpne, hpb.1]

/-- Parsing the rendering of a plain URL with the scheme "http" gives back its
host, path and query. -/
theorem Parse_String_plain (u : URL) (hs : u.Scheme = "http") (hu : plainURL u = true) :
    Parse u.String =
      .ok { Scheme := "http", Host := u.Host, Path := u.Path, RawQuery := u.RawQuery } := by
  have hrender := render_plain u hs hu
  simp only [plainURL, Bool.decide_and, Bool.and_eq_true, decide_eq_true_eq] at hu
  obtain ⟨_, _, _, _, _, _, hh, hp, hq⟩ := hu
  have hhb := plainHost_bytes u.Host hh
  have hpb := plainPath_bytes u.Path hp
  have hqb := plainQuery_bytes u.RawQuery hq
  have hhash : '#' ∉ u.render := by
    rw [hrender]
    intro hc
    simp only [List.mem_cons, List.mem_append] at hc
    rcases hc with hc | hc | hc | hc | hc | (hc | hc | hc | hc) | hc
    · exact absurd hc (by decide)
    · exact absurd hc (by decide)
    · exact absurd hc (by decide)
    · exact absurd hc (by decide)
    · exact absurd hc (by decide)
    · exact absurd hc (by decide)
    · exact absurd hc (by decide)
    · exact (hhb '#' hc).2.2.2.2.1 rfl
    · exact (hpb.2 '#' hc).2.2.2.1 rfl
    · split at hc
      · simp at hc
      · simp only [List.mem_cons] at hc
        rcases hc with hc | hc
        · exact absurd hc (by decide)
        · exact (hqb '#' hc).1 rfl
  show (match cut '#' u.render with
    | none => parse u.render false
    | some (v, frag) => _) = _
  rw [cut_none '#' _ hhash]
  simp only
  rw [hrender]
  exact parse_plain u.Host u.Path u.RawQuery hh hp hq

/-- The request that `http.NewRequest` builds from the rendering of a plain
URL with the scheme "http". -/
theorem NewRequest_plain (method buffer : String) (u : URL) (hs : u.Scheme = "http")
    (hu : plainURL u = true) :
    NewRequest method u.String buffer =
      .ok { Method := method,
            URL := { Scheme := "http", Host := u.Host, Path := u.Path, RawQuery := u.RawQuery },
            Header := [], Body := Body.bytes buffer, Host := u.Host } := by
  have hh : plainHost u.Host = true := by
    simp only [plainURL, Bool.decide_and, Bool.and_eq_true, decide_eq_true_eq] at hu
    exact hu.2.2.2.2.2.2.1
  simp only [NewRequest, Parse_String_plain u hs hu, removeEmptyPort_plain u.Host hh]

/-! ## The director -/

theorem selectBackend_first (callbackPrefix : String) (requestURL : URL)
    (pre post : List BackendConfig) (b : BackendConfig)
    (hb : b.CallbackPrefix = callbackPrefix)
    (hpre : ∀ x ∈ pre, x.CallbackPrefix ≠ callbackPrefix) :
    selectBackend callbackPrefix requestURL (pre ++ b :: post) =
      { requestURL with Host := b.Host } := by
  induction pre with
  | nil => simp [selectBackend, hb]
  | cons x xs ih =>
    have hx : x.CallbackPrefix ≠ callbackPrefix := hpre x (List.mem_cons_self x xs)
    simp only [List.cons_append, selectBackend, if_neg hx]
    exact ih (fun y hy => hpre y (List.mem_cons_of_mem x hy))

theorem selectBackend_none (callbackPrefix : String) (requestURL : URL)
    (backends : List BackendConfig)
    (hno : ∀ x ∈ backends, x.CallbackPrefix ≠ callbackPrefix) :
    selectBackend callbackPrefix requestURL backends = requestURL := by
  induction backends with
  | nil => rfl
  | cons x xs ih =>
    have hx : x.CallbackPrefix ≠ callbackPrefix := hno x (List.mem_cons_self x xs)
    simp only [selectBackend, if_neg hx]
    exact ih (fun y hy => hno y (List.mem_cons_of_mem x hy))

/-- The loop writes no field but the host, and the host it leaves is the one
it found or one of the table. -/
theorem selectBackend_frame (callbackPrefix : String) (requestURL : URL)
    (backends : List BackendConfig) :
    selectBackend callbackPrefix requestURL backends =
        { requestURL with Host := (selectBackend callbackPrefix requestURL backends).Host } ∧
      ((selectBackend callbackPrefix requestURL backends).Host = requestURL.Host ∨
        ∃ b ∈ backends, (selectBackend callbackPrefix requestURL backends).Host = b.Host) := by
  induction backends with
  | nil => exact ⟨rfl, Or.inl rfl⟩
  | cons x xs ih =>
    simp only [selectBackend]
    split
    · exact ⟨rfl, Or.inr ⟨x, List.mem_cons_self x xs, rfl⟩⟩
    · refine ⟨ih.1, ?_⟩
      rcases ih.2 with h | ⟨b, hb, h⟩
      · exact Or.inl h
      · exact Or.inr ⟨b, List.mem_cons_of_mem x hb, h⟩

/-- Lines 138 to 151 write the scheme and the host only. -/
theorem rewriteURL_frame (backends : List BackendConfig) (callbackID : String)
    (requestURL : URL) :
    rewriteURL backends callbackID requestURL =
        { requestURL with
          Scheme := "http", Host := (rewriteURL backends callbackID requestURL).Host } ∧
      ((rewriteURL backends callbackID requestURL).Host = requestURL.Host ∨
        ∃ b ∈ backends, (rewriteURL backends callbackID requestURL).Host = b.Host) := by
  unfold rewriteURL
  split
  · have h := selectBackend_frame (ReplaceAllString callbackID)
      { requestURL with Scheme := "http" } backends
    exact ⟨h.1, h.2⟩
  · exact ⟨rfl, Or.inl rfl⟩

theorem length_pos_of_ne_empty (s : String) (h : s ≠ "") : s.length > 0 := by
  rcases s with ⟨l⟩
  cases l with
  | nil => exact absurd rfl h
  | cons c cs => simp [String.length]

theorem rewriteURL_empty (backends : List BackendConfig) (requestURL : URL) :
    rewriteURL backends "" requestURL = { requestURL with Scheme := "http" } := by
  simp [rewriteURL]

theorem rewriteURL_unmatched (backends : List BackendConfig) (raw : String) (requestURL : URL)
    (hno : raw = "" ∨ ∀ b ∈ backends, b.CallbackPrefix ≠ ReplaceAllString raw) :
    rewriteURL backends raw requestURL = { requestURL with Scheme := "http" } := by
  rcases hno with rfl | hno
  · exact rewriteURL_empty backends requestURL
  · unfold rewriteURL
    split
    · simp only
      rw [selectBackend_none _ _ backends hno]
    · rfl

theorem rewriteURL_first (backends : List BackendConfig) (raw : String) (requestURL : URL)
    (pre post : List BackendConfig) (b : BackendConfig) (hne : raw ≠ "")
    (hsplit : backends = pre ++ b :: post) (hb : b.CallbackPrefix = ReplaceAllString raw)
    (hpre : ∀ x ∈ pre, x.CallbackPrefix ≠ ReplaceAllString raw) :
    rewriteURL backends raw requestURL = { requestURL with Scheme := "http", Host := b.Host } := by
  unfold rewriteURL
  rw [if_pos (length_pos_of_ne_empty raw hne), hsplit]
  simp only
  rw [selectBackend_first _ _ pre post b hb hpre]

/-- The URL that the director renders is plain when the inbound URL and the
hosts of the table are. -/
theorem rewriteURL_plain (backends : List BackendConfig) (raw : String) (requestURL : URL)
    (hu : plainURL requestURL = true) (hb : ∀ b ∈ backends, plainHost b.Host = true) :
    plainURL (rewriteURL backends raw requestURL) = true := by
  obtain ⟨heq, hhost⟩ := rewriteURL_frame backends raw requestURL
  have hh : plainHost (rewriteURL backends raw requestURL).Host = true := by
    rcases hhost with h | ⟨b, hmem, h⟩
    · rw [h]
      simp only [plainURL, Bool.decide_and, Bool.and_eq_true, decide_eq_true_eq] at hu
      exact hu.2.2.2.2.2.2.1
    · rw [h]
      exact hb b hmem
  rw [heq]
  simp only [plainURL, Bool.decide_and, Bool.and_eq_true, decide_eq_true_eq] at hu ⊢
  exact ⟨hu.1, hu.2.1, hu.2.2.1, hu.2.2.2.1, hu.2.2.2.2.1, hu.2.2.2.2.2.1, hh, hu.2.2.2.2.2.2.2⟩

/-- When the decoder returns, the director renders the rewritten URL, hands the
text to `http.NewRequest`, and ends in `log.Fatal` or with the new request
under the inbound header. -/
theorem director_of_returned (backends : List BackendConfig) (request : Request)
    (buffer raw : String) (err : Option GoError)
    (hbody : request.Body = Body.bytes buffer)
    (hraw : getCallbackIDFromPayload ((ParseQuery buffer).1.Get "payload") =
      Outcome.ok (raw, err)) :
    director backends request =
      match NewRequest request.Method (rewriteURL backends raw request.URL).String buffer with
      | .error e => Outcome.fatal e
      | .ok req => Outcome.ok { req with Header := request.Header } := by
  unfold director
  rw [hbody]
  simp only [hraw]

/-- When the decoder returns and the rewritten URL is plain, the director
completes, and the outbound URL has the scheme "http", the host of the
rewritten URL, and the inbound path and query. -/
theorem director_of_plain (backends : List BackendConfig) (request : Request)
    (buffer raw : String) (err : Option GoError)
    (hbody : request.Body = Body.bytes buffer)
    (hraw : getCallbackIDFromPayload ((ParseQuery buffer).1.Get "payload") =
      Outcome.ok (raw, err))
    (hplain : plainURL (rewriteURL backends raw request.URL) = true) :
    director backends request =
      Outcome.ok
        { Method := request.Method,
          URL := { Scheme := "http", Host := (rewriteURL backends raw request.URL).Host,
                   Path := request.URL.Path, RawQuery := request.URL.RawQuery },
          Header := request.Header, Body := Body.bytes buffer,
          Host := (rewriteURL backends raw request.URL).Host } := by
  have hs : (rewriteURL backends raw request.URL).Scheme = "http" := by
    rw [(rewriteURL_frame backends raw request.URL).1]
  have hp : (rewriteURL backends raw request.URL).Path = request.URL.Path := by
    rw [(rewriteURL_frame backends raw request.URL).1]
  have hq : (rewriteURL backends raw request.URL).RawQuery = request.URL.RawQuery := by
    rw [(rewriteURL_frame backends raw request.URL).1]
  rw [director_of_returned backends request buffer raw err hbody hraw,
    NewRequest_plain request.Method buffer _ hs hplain, hp, hq]

/-- C1, as stated, fails. The payload of `shortcutBody` yields the key
`approve_req__42`, normalized `approve_req`, which equals the one entry of the
table. With the entry's host `b1:` the outbound destination host is `b1`
(`http.NewRequest` parses the rendered URL back and removes the empty port),
and with the host `b1:port` the rendered URL does not parse and the director
ends in `log.Fatal`. -/
theorem first_match_host_is_parsed_back :
    getCallbackIDFromPayload ((ParseQuery shortcutBody).1.Get "payload") =
      Outcome.ok ("approve_req__42", none) ∧
    ReplaceAllString "approve_req__42" = "approve_req" ∧
    director [⟨"approve_req", "b1:"⟩] (inbound shortcutBody) =
      Outcome.ok (outbound { Scheme := "http", Host := "b1", Path := "/slack/events" }
        shortcutBody) ∧
    (∃ msg, director [⟨"approve_req", "b1:port"⟩] (inbound shortcutBody) =
      Outcome.fatal msg) := by
  refine ⟨by decide, by decide, by decide, ⟨"invalid port after host", by decide⟩⟩

/-- C1, amended. For every route table and every routing key `raw` that the
decoder returns, the URL that the director renders for `http.NewRequest` has
the scheme "http" and, as its host, the host of the first table entry whose
`CallbackPrefix` equals the normalized key when `raw` is not empty and such an
entry exists, and the inbound host otherwise. The director ends in `log.Fatal`
when `http.NewRequest` refuses the rendering and completes with the request
parsed back from it otherwise. When the inbound URL and the hosts of the table
are plain, the director completes and the outbound destination has the scheme
"http" and exactly that host. -/
theorem director_host_is_first_match (backends : List BackendConfig) (request : Request)
    (buffer raw : String) (err : Option GoError)
    (hbody : request.Body = Body.bytes buffer)
    (hraw : getCallbackIDFromPayload ((ParseQuery buffer).1.Get "payload") =
      Outcome.ok (raw, err)) :
    (rewriteURL backends raw request.URL).Scheme = "http" ∧
    (∀ pre b post, raw ≠ "" → backends = pre ++ b :: post →
      b.CallbackPrefix = ReplaceAllString raw →
      (∀ x ∈ pre, x.CallbackPrefix ≠ ReplaceAllString raw) →
      (rewriteURL backends raw request.URL).Host = b.Host) ∧
    ((raw = "" ∨ ∀ b ∈ backends, b.CallbackPrefix ≠ ReplaceAllString raw) →
      (rewriteURL backends raw request.URL).Host = request.URL.Host) ∧
    (director backends request =
      match NewRequest request.Method (rewriteURL backends raw request.URL).String buffer with
      | .error e => Outcome.fatal e
      | .ok req => Outcome.ok { req with Header := request.Header }) ∧
    (plainURL request.URL = true → (∀ b ∈ backends, plainHost b.Host = true) →
      ∃ out, director backends request = Outcome.ok out ∧ out.URL.Scheme = "http" ∧
        (∀ pre b post, raw ≠ "" → backends = pre ++ b :: post →
          b.CallbackPrefix = ReplaceAllString raw →
          (∀ x ∈ pre, x.CallbackPrefix ≠ ReplaceAllString raw) → out.URL.Host = b.Host) ∧
        ((raw = "" ∨ ∀ b ∈ backends, b.CallbackPrefix ≠ ReplaceAllString raw) →
          out.URL.Host = request.URL.Host)) := by
  have hfirst : ∀ pre b post, raw ≠ "" → backends = pre ++ b :: post →
      b.CallbackPrefix = ReplaceAllString raw →
      (∀ x ∈ pre, x.CallbackPrefix ≠ ReplaceAllString raw) →
      (rewriteURL backends raw request.URL).Host = b.Host := by
    intro pre b post hne hsplit hb hpre
    rw [rewriteURL_first backends raw request.URL pre post b hne hsplit hb hpre]
  have hnone : (raw = "" ∨ ∀ b ∈ backends, b.CallbackPrefix ≠ ReplaceAllString raw) →
      (rewriteURL backends raw request.URL).Host = request.URL.Host := by
    intro hno
    rw [rewriteURL_unmatched backends raw request.URL hno]
  refine ⟨?_, hfirst, hnone, director_of_returned backends request buffer raw err hbody hraw, ?_⟩
  · rw [(rewriteURL_frame backends raw request.URL).1]
  · intro hu hb
    exact ⟨_, director_of_plain backends request buffer raw err hbody hraw
      (rewriteURL_plain backends raw request.URL hu hb), rfl, hfirst, hnone⟩

theorem director_host_is_first_match_witness :
    ∃ out, director sampleBackends (inbound shortcutBody) = Outcome.ok out ∧
      out.URL.Scheme = "http" ∧ out.URL.Host = "b1:9001" := by
  obtain ⟨_, _, _, _, hplain⟩ :=
    director_host_is_first_match sampleBackends (inbound shortcutBody) shortcutBody
      "approve_req__42" none rfl (by decide)
  obtain ⟨out, hout, hscheme, hfirst, _⟩ := hplain (by decide) (by decide)
  refine ⟨out, hout, hscheme, ?_⟩
  exact hfirst [⟨"approve", "b0:9000"⟩] ⟨"approve_req", "b1:9001"⟩ [⟨"approve_req", "b2:9002"⟩]
    (by decide) rfl (by decide) (by decide)

/-- C7, as stated, fails. The payload of `blockActionsBody` yields the key
`deny__7`, whose normalized form `deny` equals no prefix of the table. For the
request target `/slack/events` the director completes with the scheme "http"
while the inbound URL has none. For the target `/slack/events?x=1#frag` the
inbound query is `x=1#frag` and the outbound query is `x=1`. For the target
`*` the inbound URL has no host and the path `*`, the outbound URL the host
`*` and no path. -/
theorem unmatched_request_changes_scheme :
    getCallbackIDFromPayload ((ParseQuery blockActionsBody).1.Get "payload") =
      Outcome.ok ("deny__7", none) ∧
    (∀ b ∈ sampleBackends, b.CallbackPrefix ≠ ReplaceAllString "deny__7") ∧
    (inbound blockActionsBody).URL = { Path := "/slack/events" } ∧
    director sampleBackends (inbound blockActionsBody) =
      Outcome.ok (outbound { Scheme := "http", Path := "/slack/events" } blockActionsBody) ∧
    (inboundAt "/slack/events?x=1#frag" blockActionsBody).URL =
      { Path := "/slack/events", RawQuery := "x=1#frag" } ∧
    director sampleBackends (inboundAt "/slack/events?x=1#frag" blockActionsBody) =
      Outcome.ok (outbound
        { Scheme := "http", Path := "/slack/events", RawQuery := "x=1", Fragment := "frag" }
        blockActionsBody) ∧
    (inboundAt "*" blockActionsBody).URL = { Path := "*" } ∧
    director sampleBackends (inboundAt "*" blockActionsBody) =
      Outcome.ok (outbound { Scheme := "http", Host := "*" } blockActionsBody) := by
  refine ⟨by decide, by decide, by decide, by decide, by decide, by decide, by decide,
    by decide⟩

/-- C7, amended. For every inbound request for which the decoder returns and
no backend match is found (the routing key is empty, or its normalized form
equals no configured prefix), the URL that the director renders for
`http.NewRequest` is the inbound URL with its scheme set to "http" and nothing
else changed; the director ends in `log.Fatal` when `http.NewRequest` refuses
the rendering and completes with the request parsed back from it otherwise.
When the inbound URL is plain, the director completes and the host, path and
query of the outbound URL equal those of the inbound URL; the scheme of the
outbound URL is "http". -/
theorem unmatched_request_keeps_host_path_query (backends : List BackendConfig)
    (request : Request) (buffer raw : String) (err : Option GoError)
    (hbody : request.Body = Body.bytes buffer)
    (hraw : getCallbackIDFromPayload ((ParseQuery buffer).1.Get "payload") =
      Outcome.ok (raw, err))
    (hno : raw = "" ∨ ∀ b ∈ backends, b.CallbackPrefix ≠ ReplaceAllString raw) :
    rewriteURL backends raw request.URL = { request.URL with Scheme := "http" } ∧
    (director backends request =
      match NewRequest request.Method ({ request.URL with Scheme := "http" } : URL).String
          buffer with
      | .error e => Outcome.fatal e
      | .ok req => Outcome.ok { req with Header := request.Header }) ∧
    (plainURL request.URL = true →
      ∃ out, director backends request = Outcome.ok out ∧
        out.URL.Host = request.URL.Host ∧ out.URL.Path = request.URL.Path ∧
        out.URL.RawQuery = request.URL.RawQuery ∧ out.URL.Scheme = "http") := by
  have hrw := rewriteURL_unmatched backends raw request.URL hno
  refine ⟨hrw, ?_, ?_⟩
  · rw [director_of_returned backends request buffer raw err hbody hraw, hrw]
  · intro hu
    have hplain : plainURL (rewriteURL backends raw request.URL) = true := by
      rw [hrw]
      simp only [plainURL, Bool.decide_and, Bool.and_eq_true, decide_eq_true_eq] at hu ⊢
      exact hu
    refine ⟨_, director_of_plain backends request buffer raw err hbody hraw hplain, ?_, rfl, rfl,
      rfl⟩
    show (rewriteURL backends raw request.URL).Host = request.URL.Host
    rw [hrw]

theorem unmatched_request_keeps_host_path_query_witness :
    ∃ out, director sampleBackends
        (inboundAt "https://gw.example.com/slack/events?team=T1"
          "payload=%7B%22type%22%3A%22shortcut%22%2C%22callback_id%22%3A%22approve_re__1%22%7D&stray") =
          Outcome.ok out ∧
      out.URL.Host = "gw.example.com" ∧ out.URL.Path = "/slack/events" ∧
      out.URL.RawQuery = "team=T1" ∧ out.URL.Scheme = "http" :=
  (unmatched_request_keeps_host_path_query sampleBackends
    (inboundAt "https://gw.example.com/slack/events?team=T1"
      "payload=%7B%22type%22%3A%22shortcut%22%2C%22callback_id%22%3A%22approve_re__1%22%7D&stray")
    "payload=%7B%22type%22%3A%22shortcut%22%2C%22callback_id%22%3A%22approve_re__1%22%7D&stray"
    "approve_re__1" none rfl (by decide) (Or.inr (by decide))).2.2 (by decide)

/-- C8, as stated, fails. For the request target `/slack/events?x=%zz&y=1#frag`
the inbound query is `x=%zz&y=1#frag` and the outbound query is `x=%zz&y=1`:
`http.NewRequest` parses the rendered URL back and reads `#frag` as a
fragment. For the request target `*` the inbound path is `*` and, a backend
having matched, the outbound path is `/*`. -/
theorem outbound_path_and_query_are_parsed_back :
    (inboundAt "/slack/events?x=%zz&y=1#frag" shortcutBody).URL =
      { Path := "/slack/events", RawQuery := "x=%zz&y=1#frag" } ∧
    director sampleBackends (inboundAt "/slack/events?x=%zz&y=1#frag" shortcutBody) =
      Outcome.ok (outbound
        { Scheme := "http", Host := "b1:9001", Path := "/slack/events",
          RawQuery := "x=%zz&y=1", Fragment := "frag" }
        shortcutBody) ∧
    (inboundAt "*" shortcutBody).URL = { Path := "*" } ∧
    director sampleBackends (inboundAt "*" shortcutBody) =
      Outcome.ok (outbound
        { Scheme := "http", Host := "b1:9001", Path := "/*", RawPath := "/*" } shortcutBody) := by
  refine ⟨by decide, by decide, by decide, by decide⟩

/-- C8, amended. For every inbound request on which the director completes,
whether or not a backend matched, the outbound request has the method, the
header and the body bytes of the inbound request, and its URL is the one that
`http.NewRequest` parses back (an empty port removed) from the rendering of
the inbound URL with the scheme set to "http" and the host possibly replaced.
When the inbound URL and the hosts of the table are plain, the path and the
query string of the outbound URL are those of the inbound URL. -/
theorem director_keeps_method_header_body_path_query (backends : List BackendConfig)
    (request out : Request) (h : director backends request = Outcome.ok out) :
    out.Method = request.Method ∧ out.Header = request.Header ∧ out.Body = request.Body ∧
    (∃ host u, Parse ({ request.URL with Scheme := "http", Host := host } : URL).String = .ok u ∧
      out.URL = { u with Host := ⟨removeEmptyPort u.Host.data⟩ }) ∧
    (plainURL request.URL = true → (∀ b ∈ backends, plainHost b.Host = true) →
      out.URL.Path = request.URL.Path ∧ out.URL.RawQuery = request.URL.RawQuery) := by
  cases hb : request.Body with
  | absent => simp [director, hb] at h
  | broken e => simp [director, hb] at h
  | bytes buffer =>
    cases hd : getCallbackIDFromPayload ((ParseQuery buffer).1.Get "payload") with
    | panic msg => simp [director, hb, hd] at h
    | fatal msg => simp [director, hb, hd] at h
    | ok value =>
      obtain ⟨raw, err⟩ := value
      have hdir := director_of_returned backends request buffer raw err hb hd
      have hplainCase : plainURL request.URL = true → (∀ b ∈ backends, plainHost b.Host = true) →
          out.URL.Path = request.URL.Path ∧ out.URL.RawQuery = request.URL.RawQuery := by
        intro hu hbs
        have hp := director_of_plain backends request buffer raw err hb hd
          (rewriteURL_plain backends raw request.URL hu hbs)
        rw [h] at hp
        simp only [Outcome.ok.injEq] at hp
        rw [hp]
        exact ⟨rfl, rfl⟩
      rw [h] at hdir
      unfold NewRequest at hdir
      cases hparse : Parse (rewriteURL backends raw request.URL).String with
      | error e => simp [hparse] at hdir
      | ok u =>
        simp only [hparse, Outcome.ok.injEq] at hdir
        rw [hdir]
        refine ⟨rfl, rfl, rfl, ⟨(rewriteURL backends raw request.URL).Host, u, ?_, rfl⟩, ?_⟩
        · rw [← (rewriteURL_frame backends raw request.URL).1]
          exact hparse
        · rw [← hdir]
          exact hplainCase

theorem director_keeps_method_header_body_path_query_witness :
    director sampleBackends
        (inboundAt "/slack/events?team=T1"
          "payload=%7B%22type%22%3A%22view_submission%22%2C%22view%22%3A%7B%22callback_id%22%3A%22approve_req__9%22%7D%7D") =
      Outcome.ok (outbound
        { Scheme := "http", Host := "b1:9001", Path := "/slack/events", RawQuery := "team=T1" }
        "payload=%7B%22type%22%3A%22view_submission%22%2C%22view%22%3A%7B%22callback_id%22%3A%22approve_req__9%22%7D%7D") ∧
    ("/slack/events" =
        (inboundAt "/slack/events?team=T1"
          "payload=%7B%22type%22%3A%22view_submission%22%2C%22view%22%3A%7B%22callback_id%22%3A%22approve_req__9%22%7D%7D").URL.Path ∧
      "team=T1" =
        (inboundAt "/slack/events?team=T1"
          "payload=%7B%22type%22%3A%22view_submission%22%2C%22view%22%3A%7B%22callback_id%22%3A%22approve_req__9%22%7D%7D").URL.RawQuery) :=
  ⟨by decide,
   (director_keeps_method_header_body_path_query sampleBackends
      (inboundAt "/slack/events?team=T1"
        "payload=%7B%22type%22%3A%22view_submission%22%2C%22view%22%3A%7B%22callback_id%22%3A%22approve_req__9%22%7D%7D")
      (outbound
        { Scheme := "http", Host := "b1:9001", Path := "/slack/events", RawQuery := "team=T1" }
        "payload=%7B%22type%22%3A%22view_submission%22%2C%22view%22%3A%7B%22callback_id%22%3A%22approve_req__9%22%7D%7D")
      (by decide)).2.2.2.2 (by decide) (by decide)⟩

/-- C9, evaluated. The body below holds a well-formed `payload` pair and a pair
with an invalid percent-escape: form parsing reports an error, which the
director assigns on line 126 and never reads; the `payload` pair is decoded
all the same, the key `approve_req__42` is derived from it, and the request is
routed to the backend `b1:9001` instead of leaving with the inbound host. -/
theorem malformed_body_is_still_routed :
    (ParseQuery "payload=%7B%22type%22%3A%22shortcut%22%2C%22callback_id%22%3A%22approve_req__42%22%7D&x=%zz").2 ≠
      none ∧
    (ParseQuery "payload=%7B%22type%22%3A%22shortcut%22%2C%22callback_id%22%3A%22approve_req__42%22%7D&x=%zz").1.Get
        "payload" = "\x7b\"type\":\"shortcut\",\"callback_id\":\"approve_req__42\"\x7d" ∧
    (inbound "payload=%7B%22type%22%3A%22shortcut%22%2C%22callback_id%22%3A%22approve_req__42%22%7D&x=%zz").URL.Host = "" ∧
    director sampleBackends
        (inbound "payload=%7B%22type%22%3A%22shortcut%22%2C%22callback_id%22%3A%22approve_req__42%22%7D&x=%zz") =
      Outcome.ok (outbound { Scheme := "http", Host := "b1:9001", Path := "/slack/events" }
        "payload=%7B%22type%22%3A%22shortcut%22%2C%22callback_id%22%3A%22approve_req__42%22%7D&x=%zz") := by
  refine ⟨by decide, by decide, by decide, by decide⟩

end SlackBotGateway
